import Mathlib

/-
Verification of the PySafeScan static taint-flow analyzer.

The definitions below are a shallow embedding of the Python sources:
  src/core/taint_analysis_fixed.py  (class FixedTaintAnalyzer)   -> namespace FixedTA
  src/core/taint_analysis.py        (class TaintAnalyzer)        -> namespace OrigTA
  src/ast_analyzer/simple_analyzer.py (SimplePythonAnalyzer)     -> namespace Simple

Modelling conventions:
  - Python dicts are insertion-ordered association lists; `d[k] = v` replaces the
    value in place when the key exists and appends otherwise (`aset`).
  - `list(set(xs))` is modelled as first-occurrence deduplication (`dedupFirst`).
    CPython's set iteration order is hash-dependent; every fact proved below is
    insensitive to the order chosen.
  - The set difference iterated in `_extract_all_chains` is modelled in key
    insertion order, for the same reason.
  - CPython's `id(node)`, used to build placeholder variable names in
    `_process_source`, is a run-dependent machine address.  It is modelled as an
    oracle `ids : Nat -> Nat` applied to an allocation counter; a run of the
    analyzer is a function of the parsed tree and this oracle.
  - Expression and statement lists are their own inductive types (PyExprList,
    PyStmtList) so that every tree walk is a structural mutual recursion the
    kernel can evaluate.
  - The two graph walks that are not structural on the tree
    (`_trace_taint_path` and the chain-extraction DFS) take a recursion fuel;
    the callers supply fuel exceeding the number of recorded variables, which
    the termination analysis below shows is sufficient.
  - The parent pointers installed by `_set_parents` are modelled by passing a
    `Parent` descriptor of the enclosing node down the traversal; this is the
    same information the parent index holds, because the parent of a node is
    determined by its position in the tree.
-/

namespace PySafeScan

/-- Taint type enumeration (class TaintType in taint_analysis_fixed.py; the
enum in taint_analysis.py is the same minus SERIALIZED_DATA, which that class
never produces). -/
inductive TaintType where
  | userInput
  | commandLine
  | webInput
  | environment
  | fileInput
  | network
  | propagated
  | parameter
  | serializedData
  deriving DecidableEq, Repr

/-- The `.value` string of each enum member. -/
def TaintType.value : TaintType → String
  | .userInput => "user_input"
  | .commandLine => "command_line"
  | .webInput => "web_input"
  | .environment => "environment"
  | .fileInput => "file_input"
  | .network => "network"
  | .propagated => "propagated"
  | .parameter => "parameter"
  | .serializedData => "serialized_data"

mutual

/-- Python expression nodes, restricted to the shapes the analyzer inspects.
`formattedValue` is the ast.FormattedValue node occurring inside
ast.JoinedStr values. -/
inductive PyExpr where
  | name (id : String)
  | constant
  | call (func : PyExpr) (args : PyExprList) (line : Nat)
  | attribute (value : PyExpr) (attr : String) (line : Nat)
  | binOp (left : PyExpr) (right : PyExpr)
  | unaryOp (operand : PyExpr)
  | subscript (value : PyExpr) (idx : PyExpr)
  | joinedStr (values : PyExprList)
  | formattedValue (value : PyExpr)

/-- A list of expression nodes (own inductive so tree walks are structural). -/
inductive PyExprList where
  | nil
  | cons (head : PyExpr) (tail : PyExprList)

end

mutual

/-- Python statement nodes, restricted to the shapes the analyzer handles. -/
inductive PyStmt where
  | assign (targets : PyExprList) (value : PyExpr) (line : Nat)
  | augAssign (target : PyExpr) (value : PyExpr) (line : Nat)
  | exprStmt (value : PyExpr)
  | functionDef (fname : String) (params : List String) (body : PyStmtList) (line : Nat)

/-- A list of statement nodes. -/
inductive PyStmtList where
  | nil
  | cons (head : PyStmt) (tail : PyStmtList)

end

/-- Descriptor of a node's syntactic parent: the information `_set_parents`
records and the visitors consult via `getattr(node, 'parent', None)`.
`subscriptP` carries the subscript node's own parent, which the `sys.argv[i]`
pattern inspects. -/
inductive Parent where
  | noParent
  | assignP (targets : PyExprList) (line : Nat)
  | callP (func : PyExpr)
  | subscriptP (outer : Parent)
  | otherP

/-- Tainted variable record (dataclass TaintVariable). -/
structure TaintVariable where
  name : String
  line : Nat
  type : TaintType
  sources : List String
  deriving DecidableEq, Repr

/-- Python `to_dict` of a TaintVariable. -/
structure VarDict where
  name : String
  line : Nat
  type : String
  sources : List String
  deriving DecidableEq, Repr

def TaintVariable.toDict (v : TaintVariable) : VarDict :=
  ⟨v.name, v.line, v.type.value, v.sources⟩

/-- Insertion-ordered dictionary lookup. -/
def alookup {α : Type} : List (String × α) → String → Option α
  | [], _ => none
  | (k, v) :: rest, k' => if k = k' then some v else alookup rest k'

/-- Insertion-ordered dictionary assignment `d[k] = v`: replace in place if the
key is present, append otherwise. -/
def aset {α : Type} : List (String × α) → String → α → List (String × α)
  | [], k, v => [(k, v)]
  | (k', v') :: rest, k, v =>
    if k' = k then (k, v) :: rest else (k', v') :: aset rest k v

/-- Whether `pat` starts the character list given second. -/
def leadsWith : List Char → List Char → Bool
  | [], _ => true
  | _ :: _, [] => false
  | a :: as, b :: bs => a == b && leadsWith as bs

/-- Whether `pat` occurs inside the second list as a contiguous run. -/
def containsSeq (pat : List Char) : List Char → Bool
  | [] => leadsWith pat []
  | c :: cs => leadsWith pat (c :: cs) || containsSeq pat cs

/-- Python's `pat in hay` substring test. -/
def strContainsSub (hay pat : String) : Bool :=
  containsSeq pat.toList hay.toList

/-- Python `s.startswith(pre)`. -/
def startsWithSeg (s pre : String) : Bool :=
  leadsWith pre.toList s.toList

/-- Python `s.endswith(suffix)`. -/
def endsWithSeg (s suffix : String) : Bool :=
  leadsWith suffix.toList.reverse s.toList.reverse

/-- Python `s.split('.')`: split at every dot, keeping empty segments. -/
def splitDotsAux : List Char → List Char → List String
  | [], acc => [String.mk acc.reverse]
  | c :: cs, acc =>
    if c = '.' then String.mk acc.reverse :: splitDotsAux cs []
    else splitDotsAux cs (c :: acc)

def splitDots (s : String) : List String :=
  splitDotsAux s.toList []

/-- Python `'.'.join(parts)`. -/
def joinDots : List String → String
  | [] => ""
  | [p] => p
  | p :: rest => p ++ "." ++ joinDots rest

/-- Python `name.split('.')[-1]`. -/
def lastSeg (name : String) : String :=
  (splitDots name).getLastD name

/-- Python `name.split('.')[-1] if '.' in name else name`. -/
def baseNameOf (name : String) : String :=
  if strContainsSub name "." then lastSeg name else name

/-- Python `list(set(xs))`, modelled as first-occurrence deduplication (see header). -/
def dedupFirst (l : List String) : List String :=
  l.foldl (fun acc x => if x ∈ acc then acc else acc ++ [x]) []

/-- Python `_get_full_function_name` / `_extract_attribute_name`: climb the attribute
chain collecting attribute names; prepend the root identifier when the chain
bottoms out in a bare name. -/
def attrParts : PyExpr → List String
  | .attribute v a _ => attrParts v ++ [a]
  | .name i => [i]
  | _ => []

/-- Python `_get_full_function_name` (identical in both analyzer classes). -/
def getFullFuncName : PyExpr → String
  | .name i => i
  | .attribute v a l => joinDots (attrParts (.attribute v a l))
  | _ => ""

/-! ## FixedTaintAnalyzer (src/core/taint_analysis_fixed.py) -/

namespace FixedTA

/-- Python `self.source_functions`, in dict-literal order. -/
def sourceFunctions : List (String × TaintType) :=
  [("input", .userInput), ("raw_input", .userInput),
   ("argv", .commandLine), ("sys.argv", .commandLine),
   ("get", .webInput), ("post", .webInput), ("request", .webInput),
   ("get_data", .serializedData), ("get_json", .serializedData),
   ("data", .serializedData), ("args", .webInput), ("form", .webInput),
   ("environ", .environment), ("os.environ", .environment),
   ("getenv", .environment), ("os.getenv", .environment),
   ("read", .fileInput), ("open", .fileInput),
   ("recv", .network), ("recvfrom", .network)]

/-- Python `self.sink_functions`, in dict-literal order. -/
def sinkFunctions : List (String × String) :=
  [("os.system", "command_injection"), ("os.popen", "command_injection"),
   ("os.spawn", "command_injection"), ("subprocess.call", "command_injection"),
   ("subprocess.Popen", "command_injection"), ("subprocess.run", "command_injection"),
   ("subprocess.check_call", "command_injection"),
   ("subprocess.check_output", "command_injection"),
   ("eval", "code_injection"), ("exec", "code_injection"),
   ("compile", "code_injection"), ("__import__", "code_injection"),
   ("pickle.loads", "deserialization"), ("pickle.load", "deserialization"),
   ("yaml.load", "deserialization"), ("yaml.safe_load", "deserialization"),
   ("marshal.loads", "deserialization"), ("open", "path_traversal"),
   ("execfile", "code_injection"), ("execute", "sql_injection"),
   ("cursor.execute", "sql_injection"), ("sqlite3.connect.execute", "sql_injection")]

/-- Python `self.propagator_functions` (a set; membership only). -/
def propagatorFunctions : List String :=
  ["format", "replace", "strip", "split", "join",
   "upper", "lower", "encode", "decode", "capitalize",
   "title", "swapcase", "lstrip", "rstrip", "zfill",
   "center", "ljust", "rjust", "expandtabs",
   "removeprefix", "removesuffix"]

/-- Python `_is_source_function`: first table entry equal to the base name or to the
full name. -/
def isSourceFunction (funcName : String) : Option TaintType :=
  let base := baseNameOf funcName
  (sourceFunctions.find? (fun kv => kv.1 = base || kv.1 = funcName)).map (·.2)

/-- Python `_is_sink_function`: exact full-name match first, then first entry whose
base name (final dotted segment) equals the query's base name. -/
def isSinkFunction (funcName : String) : Option String :=
  match (sinkFunctions.find? (fun kv => kv.1 = funcName)).map (·.2) with
  | some v => some v
  | none =>
    let base := baseNameOf funcName
    (sinkFunctions.find? (fun kv => lastSeg kv.1 = base)).map (·.2)

/-- Python `_is_propagator_function`. -/
def isPropagatorFunction (funcName : String) : Bool :=
  baseNameOf funcName ∈ propagatorFunctions

/-- Analyzer state: tainted_vars, vulnerability_paths, propagation_graph and
the direct-source bookkeeping (_direct_source_nodes stores each inline source
call's parent descriptor, line and placeholder name, in insertion order).
`counter` indexes placeholder allocations for the node-id oracle. -/
structure AState where
  taintedVars : List (String × TaintVariable)
  vulnerabilityPaths : List (List String)
  propagationGraph : List (String × List String)
  directSources : List (Parent × Nat × String)
  counter : Nat

def initState : AState := ⟨[], [], [], [], 0⟩

/-- First step of `_mark_as_tainted` (and of the original class's identical
`_create_or_update_tainted_var`): create a fresh record if none exists. -/
def markEnsure (varName : String) (line : Nat) (ty : TaintType)
    (tv : List (String × TaintVariable)) : List (String × TaintVariable) :=
  if (alookup tv varName).isSome then tv
  else aset tv varName ⟨varName, line, ty, []⟩

/-- Graph half of the loop body of `_mark_as_tainted`: create the adjacency
entry for `src` when missing, then append `varName` to it unless present. -/
def markGraphUpdate (varName : String) (g : List (String × List String))
    (src : String) : List (String × List String) :=
  let g' := if (alookup g src).isSome then g else aset g src []
  let tgts := (alookup g' src).getD []
  if varName ∈ tgts then g' else aset g' src (tgts ++ [varName])

/-- Body of the per-upstream-name loop of `_mark_as_tainted`: if the upstream
name has a record and is not yet listed, append it to the target's sources and
add the propagation edge. -/
def markStep (varName : String)
    (acc : List (String × TaintVariable) × List (String × List String))
    (src : String) : List (String × TaintVariable) × List (String × List String) :=
  match alookup acc.1 varName with
  | some v =>
    if (alookup acc.1 src).isSome ∧ ¬ (src ∈ v.sources) then
      (aset acc.1 varName { v with sources := v.sources ++ [src] },
       markGraphUpdate varName acc.2 src)
    else acc
  | none => acc

/-- Core of `_mark_as_tainted` / `_create_or_update_tainted_var`. -/
def markCore (varName : String) (line : Nat) (ty : TaintType) (srcs : List String)
    (tv : List (String × TaintVariable)) (g : List (String × List String)) :
    List (String × TaintVariable) × List (String × List String) :=
  srcs.foldl (markStep varName) (markEnsure varName line ty tv, g)

/-- Python `_mark_as_tainted`. -/
def markAsTainted (varName : String) (line : Nat) (ty : TaintType)
    (srcs : List String) (s : AState) : AState :=
  let r := markCore varName line ty srcs s.taintedVars s.propagationGraph
  { s with taintedVars := r.1, propagationGraph := r.2 }

mutual

/-- Python `_extract_tainted_from_expr`.  Each Python invocation ends in
`list(set(tainted))`; see `dedupFirst`. -/
def extractTainted (tv : List (String × TaintVariable)) : PyExpr → List String
  | .name i => if (alookup tv i).isSome then dedupFirst [i] else dedupFirst []
  | .constant => dedupFirst []
  | .binOp l r => dedupFirst (extractTainted tv l ++ extractTainted tv r)
  | .call func args _ =>
    let fromArgs := extractTaintedList tv args
    let fromProp :=
      if isPropagatorFunction (getFullFuncName func) then
        match args with
        | .cons a _ => extractTainted tv a
        | .nil => []
      else []
    dedupFirst (fromArgs ++ fromProp)
  | .joinedStr vals => dedupFirst (extractJoined tv vals)
  | .subscript v _ => dedupFirst (extractTainted tv v)
  | .unaryOp e => dedupFirst (extractTainted tv e)
  | .attribute v _ _ => dedupFirst (extractTainted tv v)
  | .formattedValue _ => dedupFirst []

/-- Python `tainted.extend(...)` over a list of argument expressions. -/
def extractTaintedList (tv : List (String × TaintVariable)) : PyExprList → List String
  | .nil => []
  | .cons e rest => extractTainted tv e ++ extractTaintedList tv rest

/-- The JoinedStr branch: only FormattedValue fragments contribute, through
their `.value` child. -/
def extractJoined (tv : List (String × TaintVariable)) : PyExprList → List String
  | .nil => []
  | .cons (.formattedValue e) rest => extractTainted tv e ++ extractJoined tv rest
  | .cons _ rest => extractJoined tv rest

end

/-- Loop body of `_trace_taint_path`: `visited` accumulates processed names,
`path` grows at the front; stop on a missing record, an already-visited
variable, an empty sources list, or an already-visited first source.  Python's
loop adds `current` to `visited` before testing the first source, hence the
`current :: visited` test. -/
def traceAux (tv : List (String × TaintVariable)) :
    Nat → String → List String → List String → List String
  | 0, _, _, path => path
  | fuel + 1, current, visited, path =>
    match alookup tv current with
    | none => path
    | some v =>
      if current ∈ visited then path
      else
        match v.sources with
        | [] => path
        | next :: _ =>
          if next ∈ current :: visited then path
          else traceAux tv fuel next (current :: visited) (next :: path)

/-- Python `_trace_taint_path`. -/
def tracePath (tv : List (String × TaintVariable)) (startVar : String) : List String :=
  if (alookup tv startVar).isSome then traceAux tv (tv.length + 1) startVar [] [startVar]
  else []

/-- Record `⟨n, line, ty, []⟩` for every simple-name target (the direct
`self.tainted_vars[...] = TaintVariable(...)` assignments). -/
def recordTargets (targets : PyExprList) (line : Nat) (ty : TaintType)
    (s : AState) : AState :=
  match targets with
  | .nil => s
  | .cons (.name n) rest =>
    recordTargets rest line ty
      { s with taintedVars := aset s.taintedVars n ⟨n, line, ty, []⟩ }
  | .cons _ rest => recordTargets rest line ty s

/-- Python `_mark_as_tainted` over every simple-name target. -/
def markTargets (targets : PyExprList) (line : Nat) (ty : TaintType)
    (srcs : List String) (s : AState) : AState :=
  match targets with
  | .nil => s
  | .cons (.name n) rest => markTargets rest line ty srcs (markAsTainted n line ty srcs s)
  | .cons _ rest => markTargets rest line ty srcs s

/-- Python `_process_source`: on an assignment parent, (re)create a record for each
simple-name target; otherwise allocate a placeholder variable whose name
embeds the node id (oracle `ids` at the current allocation counter) and defer
resolution to `_process_direct_vulnerabilities`. -/
def processSource (ids : Nat → Nat) (parent : Parent) (line : Nat) (ty : TaintType)
    (s : AState) : AState :=
  match parent with
  | .assignP targets _ => recordTargets targets line ty s
  | _ =>
    let temp := "__direct_source_" ++ toString line ++ "_" ++ toString (ids s.counter)
    { s with taintedVars := aset s.taintedVars temp ⟨temp, line, ty, []⟩,
             directSources := s.directSources ++ [(parent, line, temp)],
             counter := s.counter + 1 }

/-- Inner loop of `_process_sink` for one argument position. -/
def sinkOneArg (funcName : String) (i : Nat) (arg : PyExpr) (s : AState) : AState :=
  (extractTainted s.taintedVars arg).foldl (fun s tvName =>
    let path := tracePath s.taintedVars tvName
    if path = [] then s
    else { s with vulnerabilityPaths :=
             s.vulnerabilityPaths ++
               [path ++ [funcName ++ "(arg" ++ toString i ++ ")"]] }) s

/-- Python `_process_sink`: for each argument position, extract tainted names, trace
each and append the traced path extended with the `func(argI)` label. -/
def processSinkArgs (funcName : String) (i : Nat) (args : PyExprList) (s : AState) : AState :=
  match args with
  | .nil => s
  | .cons a rest => processSinkArgs funcName (i + 1) rest (sinkOneArg funcName i a s)

def processSink (funcName : String) (args : PyExprList) (s : AState) : AState :=
  processSinkArgs funcName 0 args s

/-- Python `_process_propagator`: collect tainted names from the explicit arguments
and, for method-style calls, from the receiver object; mark each simple-name
assignment target as propagated from them. -/
def processPropagator (func : PyExpr) (args : PyExprList) (parent : Parent)
    (line : Nat) (s : AState) : AState :=
  let inputs := extractTaintedList s.taintedVars args
  let inputs := inputs ++
    (match func with
     | .attribute v _ _ => extractTainted s.taintedVars v
     | _ => [])
  if inputs = [] then s
  else
    match parent with
    | .assignP targets _ => markTargets targets line .propagated inputs s
    | _ => s

/-- Python `visit_Attribute`: the `sys.argv` patterns (direct assignment, or
subscript-then-assignment) and the `request`/`flask`/`django` attribute
sources; the visitor does not recurse into the attribute's children. -/
def visitAttribute (parent : Parent) (v : PyExpr) (a : String) (line : Nat)
    (s : AState) : AState :=
  let s :=
    if a = "argv" then
      match v with
      | .name "sys" =>
        (match parent with
         | .subscriptP gp =>
           (match gp with
            | .assignP targets _ => recordTargets targets line .commandLine s
            | _ => s)
         | .assignP targets _ => recordTargets targets line .commandLine s
         | _ => s)
      | _ => s
    else s
  match v with
  | .name obj =>
    if (obj = "request" || obj = "flask" || obj = "django") &&
       (a = "get_data" || a = "data" || a = "get_json" || a = "args" || a = "form") then
      match parent with
      | .callP _ => s
      | .assignP targets _ =>
        let ty := if a = "get_data" || a = "data" || a = "get_json"
                  then TaintType.serializedData else TaintType.webInput
        recordTargets targets line ty s
      | _ => s
    else s
  | _ => s

/-- Classification part of `visit_Call`: resolve the callee name (an empty
name is skipped entirely), then run the source, sink and propagator handlers
in that order. -/
def processCall (ids : Nat → Nat) (parent : Parent) (func : PyExpr)
    (args : PyExprList) (line : Nat) (s : AState) : AState :=
  let fn := getFullFuncName func
  if fn = "" then s
  else
    let s := match isSourceFunction fn with
      | some ty => processSource ids parent line ty s
      | none => s
    let s := match isSinkFunction fn with
      | some _ => processSink fn args s
      | none => s
    if isPropagatorFunction fn then processPropagator func args parent line s else s

mutual

/-- Python `visit_Call` and `generic_visit` over expressions.  Children are visited
in ast field order with the `Parent` descriptor of the enclosing node;
`visit_Attribute` does not call `generic_visit`, so subtrees under an
attribute node are not walked. -/
def visitExpr (ids : Nat → Nat) (parent : Parent) (e : PyExpr) (s : AState) : AState :=
  match e with
  | .name _ => s
  | .constant => s
  | .attribute v a line => visitAttribute parent v a line s
  | .call func args line =>
    let s := processCall ids parent func args line s
    let s := visitExpr ids (Parent.callP func) func s
    visitExprList ids (Parent.callP func) args s
  | .binOp l r =>
    let s := visitExpr ids Parent.otherP l s
    visitExpr ids Parent.otherP r s
  | .unaryOp e => visitExpr ids Parent.otherP e s
  | .subscript v idx =>
    let s := visitExpr ids (Parent.subscriptP parent) v s
    visitExpr ids (Parent.subscriptP parent) idx s
  | .joinedStr vals => visitExprList ids Parent.otherP vals s
  | .formattedValue v => visitExpr ids Parent.otherP v s

/-- generic_visit over a list of child expressions. -/
def visitExprList (ids : Nat → Nat) (parent : Parent) (es : PyExprList) (s : AState) :
    AState :=
  match es with
  | .nil => s
  | .cons e rest => visitExprList ids parent rest (visitExpr ids parent e s)

end

mutual

/-- One statement: `visit_Assign`, `visit_AugAssign`, or `generic_visit` for
expression statements and function definitions (FixedTaintAnalyzer has no
`visit_FunctionDef`, so a definition's body is walked with no parameter
marking). -/
def visitStmt (ids : Nat → Nat) (st : PyStmt) (s : AState) : AState :=
  match st with
  | .assign targets value line =>
    let tainted := extractTainted s.taintedVars value
    let s := if tainted = [] then s else markTargets targets line .propagated tainted s
    let p := Parent.assignP targets line
    let s := visitExprList ids p targets s
    visitExpr ids p value s
  | .augAssign target value line =>
    let s :=
      match target with
      | .name n =>
        let tainted := extractTainted s.taintedVars value
        if tainted = [] then s else markAsTainted n line .propagated tainted s
      | _ => s
    let s := visitExpr ids Parent.otherP target s
    visitExpr ids Parent.otherP value s
  | .exprStmt value => visitExpr ids Parent.otherP value s
  | .functionDef _ _ body _ => visitStmtList ids body s

/-- Traversal of a statement list (module body or function body). -/
def visitStmtList (ids : Nat → Nat) (body : PyStmtList) (s : AState) : AState :=
  match body with
  | .nil => s
  | .cons st rest => visitStmtList ids rest (visitStmt ids st s)

end

/-- Python `_process_direct_vulnerabilities`: for every recorded inline-source
placeholder whose parent is itself a sink call, synthesize the two-element
path `[placeholder, sink(arg0)]` directly. -/
def processDirectVulnerabilities (s : AState) : AState :=
  s.directSources.foldl (fun s entry =>
    match entry.1 with
    | .callP func =>
      let fn := getFullFuncName func
      (match isSinkFunction fn with
       | some _ =>
         { s with vulnerabilityPaths :=
             s.vulnerabilityPaths ++ [[entry.2.2, fn ++ "(arg0)"]] }
       | none => s)
    | _ => s) s

/-- Whether a variable name is an internal placeholder
(`name.startswith('__direct_source_')`). -/
def isDirectName (n : String) : Bool :=
  leadsWith "__direct_source_".toList n.toList

/-- The report record returned by `_generate_report`. -/
structure Report where
  file : String
  taintedVariables : Nat
  vulnerabilityPaths : List (List String)
  graphEdges : List (List String)
  sourcesFound : List VarDict
  sinksFound : Nat
  propagationChains : List (List String)
  deriving DecidableEq, Repr

/-- The chain-extraction DFS of `_extract_all_chains`: `visited` is shared
across all roots; a chain is emitted at a variable with no outgoing edges when
the accumulated path is longer than one.  Fuel bounds the recursion depth;
each recursing level adds a fresh name to `visited`, so any fuel exceeding the
number of recorded variables is enough. -/
def chainsDfs (g : List (String × List String)) :
    Nat → String → List String → List String → List String × List (List String)
  | 0, _, visited, _ => (visited, [])
  | fuel + 1, current, visited, path =>
    if current ∈ visited then (visited, [])
    else
      let visited := visited ++ [current]
      let path := path ++ [current]
      let tgts := (alookup g current).getD []
      if tgts = [] then
        (visited, if path.length > 1 then [path] else [])
      else
        tgts.foldl (fun acc nxt =>
          let r := chainsDfs g fuel nxt acc.1 path
          (r.1, acc.2 ++ r.2)) (visited, [])

/-- Python `_extract_all_chains`: start a DFS from every variable with no incoming
propagation edge.  Python iterates a set difference; modelled in key
insertion order (see header). -/
def extractAllChains (s : AState) : List (List String) :=
  let incoming := s.propagationGraph.foldl (fun acc st => acc ++ st.2) []
  let roots := (s.taintedVars.map (·.1)).filter (fun n => ¬ n ∈ incoming)
  let fuel := s.taintedVars.length + 1
  (roots.foldl (fun acc root =>
    let r := chainsDfs s.propagationGraph fuel root acc.1 []
    (r.1, acc.2 ++ r.2)) (([] : List String), ([] : List (List String)))).2

/-- Python `_generate_report`. -/
def generateReport (file : String) (s : AState) : Report :=
  let sourcesFound := s.taintedVars.foldl (fun acc nv =>
    if isDirectName nv.1 then acc else acc ++ [nv.2.toDict]) []
  let graphEdges := s.propagationGraph.foldl (fun acc st =>
    if isDirectName st.1 then acc else acc ++ st.2.map (fun t => [st.1, t])) []
  { file := file,
    taintedVariables := (s.taintedVars.filter (fun nv => ¬ isDirectName nv.1)).length,
    vulnerabilityPaths := s.vulnerabilityPaths,
    graphEdges := graphEdges,
    sourcesFound := sourcesFound,
    sinksFound := s.vulnerabilityPaths.length,
    propagationChains := extractAllChains s }

/-- The analyzer state after `self.visit(tree)` and the deferred direct-call
pass, starting from freshly reset state. -/
def runState (ids : Nat → Nat) (body : PyStmtList) : AState :=
  processDirectVulnerabilities (visitStmtList ids body initState)

/-- Python `analyze_code`: traverse, run the fix-up pass, generate the report. -/
def analyzeCode (ids : Nat → Nat) (body : PyStmtList) (file : String) : Report :=
  generateReport file (runState ids body)

end FixedTA

/-! ## TaintAnalyzer (src/core/taint_analysis.py)

The original engine.  It matches source and sink patterns by SUBSTRING
(`pattern in func_name`), marks function parameters in `visit_FunctionDef`,
and labels sink paths `func()` with no argument index.  This class never
calls a `_set_parents` pass, so `getattr(node, 'parent', None)` is always
`None` inside `_handle_taint_source` and `_handle_propagator`: their
assignment branches are dead and neither handler changes any state. -/

namespace OrigTA

/-- Python `self.source_patterns`, in dict-literal order. -/
def sourcePatterns : List (String × TaintType) :=
  [("input", .userInput), ("raw_input", .userInput), ("argv", .commandLine),
   ("get", .webInput), ("post", .webInput), ("request", .webInput),
   ("environ", .environment), ("getenv", .environment),
   ("read", .fileInput), ("recv", .network)]

/-- Python `self.sink_patterns`, in dict-literal order. -/
def sinkPatterns : List (String × String) :=
  [("os.system", "command_injection"), ("os.popen", "command_injection"),
   ("subprocess.call", "command_injection"), ("subprocess.Popen", "command_injection"),
   ("subprocess.run", "command_injection"),
   ("eval", "code_injection"), ("exec", "code_injection"),
   ("compile", "code_injection"), ("__import__", "code_injection"),
   ("pickle.loads", "deserialization"), ("yaml.load", "deserialization"),
   ("marshal.loads", "deserialization"), ("open", "path_traversal"),
   ("execfile", "code_injection")]

/-- Python `self.propagator_patterns`. -/
def propagatorPatterns : List String :=
  ["format", "replace", "strip", "split", "join",
   "upper", "lower", "encode", "decode", "capitalize",
   "title", "swapcase", "lstrip", "rstrip"]

/-- Python `_get_taint_type`: first pattern occurring as a substring of the name. -/
def getTaintType (funcName : String) : Option TaintType :=
  (sourcePatterns.find? (fun kv => strContainsSub funcName kv.1)).map (·.2)

/-- Python `_get_vulnerability_type`: first pattern occurring as a substring. -/
def getVulnerabilityType (funcName : String) : Option String :=
  (sinkPatterns.find? (fun kv => strContainsSub funcName kv.1)).map (·.2)

/-- Python `_is_propagator`. -/
def isPropagator (funcName : String) : Bool :=
  (splitDots funcName).getLastD funcName ∈ propagatorPatterns

/-- Analyzer state (tainted_vars, vulnerability_paths, propagation_graph). -/
structure OState where
  taintedVars : List (String × TaintVariable)
  vulnerabilityPaths : List (List String)
  propagationGraph : List (String × List String)

def initState : OState := ⟨[], [], []⟩

/-- Python `_create_or_update_tainted_var` (body identical to FixedTA's
`_mark_as_tainted`; see `FixedTA.markCore`). -/
def createOrUpdateTaintedVar (varName : String) (line : Nat) (ty : TaintType)
    (srcs : List String) (s : OState) : OState :=
  let r := FixedTA.markCore varName line ty srcs s.taintedVars s.propagationGraph
  { s with taintedVars := r.1, propagationGraph := r.2 }

mutual

/-- Python `_find_tainted_variables`: only Name, BinOp and Call-arguments shapes
contribute; every invocation ends in `list(set(tainted))`. -/
def findTainted (tv : List (String × TaintVariable)) : PyExpr → List String
  | .name i => if (alookup tv i).isSome then dedupFirst [i] else dedupFirst []
  | .binOp l r => dedupFirst (findTainted tv l ++ findTainted tv r)
  | .call _ args _ => dedupFirst (findTaintedList tv args)
  | _ => dedupFirst []

def findTaintedList (tv : List (String × TaintVariable)) : PyExprList → List String
  | .nil => []
  | .cons e rest => findTainted tv e ++ findTaintedList tv rest

end

/-- Python `_trace_taint_path` loop: no visited set; the cycle guard is
`if current not in path`. -/
def traceAux (tv : List (String × TaintVariable)) :
    Nat → String → List String → List String
  | 0, _, path => path
  | fuel + 1, current, path =>
    match alookup tv current with
    | none => path
    | some v =>
      match v.sources with
      | [] => path
      | next :: _ =>
        if next ∈ path then path else traceAux tv fuel next (next :: path)

/-- Python `_trace_taint_path`. -/
def tracePath (tv : List (String × TaintVariable)) (startVar : String) : List String :=
  traceAux tv (tv.length + 2) startVar [startVar]

/-- Python `_handle_taint_sink`: collect tainted names over all arguments, then trace
each and append the path extended with `func()`. -/
def handleTaintSink (funcName : String) (args : PyExprList) (s : OState) : OState :=
  (findTaintedList s.taintedVars args).foldl (fun s tvName =>
    let path := tracePath s.taintedVars tvName
    if path = [] then s
    else { s with vulnerabilityPaths :=
             s.vulnerabilityPaths ++ [path ++ [funcName ++ "()"]] }) s

/-- Loop body of `visit_FunctionDef`: register one declared parameter as
Parameter-tainted at the function's line unless already recorded. -/
def markParamStep (line : Nat) (s : OState) (p : String) : OState :=
  if (alookup s.taintedVars p).isSome then s
  else { s with taintedVars := aset s.taintedVars p ⟨p, line, .parameter, []⟩ }

/-- Python `visit_FunctionDef`: register every declared parameter. -/
def markParams (params : List String) (line : Nat) (s : OState) : OState :=
  params.foldl (markParamStep line) s

mutual

/-- Python `visit_Call` and `generic_visit`.  `_handle_taint_source` and
`_handle_propagator` read `getattr(node, 'parent', None)`, which is always
`None` here (no `_set_parents` pass), so neither mutates state; only the sink
handler acts.  Unlike the fixed class, attribute nodes are walked generically
into their children. -/
def visitExpr (e : PyExpr) (s : OState) : OState :=
  match e with
  | .name _ => s
  | .constant => s
  | .attribute v _ _ => visitExpr v s
  | .call func args _ =>
    let fn := getFullFuncName func
    let s := match getVulnerabilityType fn with
      | some _ => handleTaintSink fn args s
      | none => s
    let s := visitExpr func s
    visitExprList args s
  | .binOp l r => visitExpr r (visitExpr l s)
  | .unaryOp e => visitExpr e s
  | .subscript v idx => visitExpr idx (visitExpr v s)
  | .joinedStr vals => visitExprList vals s
  | .formattedValue v => visitExpr v s

def visitExprList (es : PyExprList) (s : OState) : OState :=
  match es with
  | .nil => s
  | .cons e rest => visitExprList rest (visitExpr e s)

end

mutual

/-- Python `visit_Assign`, `visit_FunctionDef`, and `generic_visit` for the rest
(TaintAnalyzer has no `visit_AugAssign`). -/
def visitStmt (st : PyStmt) (s : OState) : OState :=
  match st with
  | .assign targets value line =>
    let tainted := findTainted s.taintedVars value
    let s :=
      if tainted = [] then s
      else markAssignTargets targets line tainted s
    let s := visitExprList targets s
    visitExpr value s
  | .augAssign target value _ =>
    let s := visitExpr target s
    visitExpr value s
  | .exprStmt value => visitExpr value s
  | .functionDef _ params body line =>
    let s := markParams params line s
    visitStmtList body s

/-- Python `_create_or_update_tainted_var` over every simple-name target. -/
def markAssignTargets (targets : PyExprList) (line : Nat) (srcs : List String)
    (s : OState) : OState :=
  match targets with
  | .nil => s
  | .cons (.name n) rest =>
    markAssignTargets rest line srcs (createOrUpdateTaintedVar n line .propagated srcs s)
  | .cons _ rest => markAssignTargets rest line srcs s

def visitStmtList (body : PyStmtList) (s : OState) : OState :=
  match body with
  | .nil => s
  | .cons st rest => visitStmtList rest (visitStmt st s)

end

/-- One run of TaintAnalyzer's traversal from freshly reset state. -/
def runState (body : PyStmtList) : OState :=
  visitStmtList body initState

end OrigTA

/-! ## SimplePythonAnalyzer (src/ast_analyzer/simple_analyzer.py) -/

namespace Simple

/-- DANGEROUS_FUNCTIONS (a set literal; iteration order is hash-dependent in
CPython.  Modelled in literal order — every fact proved about the loop below
is order-insensitive, because the only order-sensitive interactions are
between same-module `os.*` entries, which no proved statement touches). -/
def DANGEROUS_FUNCTIONS : List String :=
  ["exec", "eval", "execute", "compile", "open", "__import__",
   "os.system", "os.popen", "os.spawn", "subprocess.run",
   "subprocess.call", "subprocess.Popen", "pickle.loads",
   "yaml.load", "sqlite3.connect", "cursor.execute", "conn.execute"]

/-- The part-3 "smart partial match" loop of `_is_dangerous_function`:
entries without a module prefix are skipped (`continue`), entries whose
module differs from the query's are skipped; an `os.*` query hits the os
special cases, any other module match returns True. -/
def dangerLoop (funcParts : List String) (funcName : String) : List String → Bool
  | [] => false
  | d :: rest =>
    if ¬ strContainsSub d "." then dangerLoop funcParts funcName rest
    else
      let dParts := splitDots d
      if funcParts.headD "" ≠ dParts.headD "" then dangerLoop funcParts funcName rest
      else if funcParts.headD "" = "os" then
        if funcParts.length > 1 && startsWithSeg (funcParts.getD 1 "") "path" then false
        else if startsWithSeg (dParts.getD 1 "") "spawn" then
          startsWithSeg (funcParts.getD 1 "") "spawn"
        else if startsWithSeg (dParts.getD 1 "") "popen" then
          startsWithSeg (funcParts.getD 1 "") "popen"
        else funcName = d
      else true

/-- Python `_is_dangerous_function`: the `.execute` catch-all, exact membership,
bare names restricted to exact match, then the smart partial-match loop. -/
def isDangerousFunction (funcName : String) : Bool :=
  if endsWithSeg funcName ".execute" || funcName = "execute" then true
  else if funcName ∈ DANGEROUS_FUNCTIONS then true
  else if ¬ strContainsSub funcName "." then false
  else dangerLoop (splitDots funcName) funcName DANGEROUS_FUNCTIONS

end Simple

/-! ## Specification predicates -/

/-- A name has a TaintRecord in the store. -/
def TaintedHas (tv : List (String × TaintVariable)) (n : String) : Prop :=
  (alookup tv n).isSome = true

/-- Spec invariant (section 3): every variable name appearing in a propagation
edge — either endpoint — has a TaintRecord. -/
def EdgesHaveRecords (tv : List (String × TaintVariable))
    (g : List (String × List String)) : Prop :=
  ∀ p ∈ g, TaintedHas tv p.1 ∧ ∀ t ∈ p.2, TaintedHas tv t

/-- Every name listed in some record's sources has a TaintRecord itself. -/
def RecordsClosed (tv : List (String × TaintVariable)) : Prop :=
  ∀ p ∈ tv, ∀ n ∈ p.2.sources, TaintedHas tv n

/-- Spec invariant (section 3): no record's sources list contains the record's
own variable name. -/
def NoSelfLoop (tv : List (String × TaintVariable)) : Prop :=
  ∀ p ∈ tv, ¬ p.1 ∈ p.2.sources

/-- Number of distinct tainted variables in a store. -/
def distinctCount (tv : List (String × TaintVariable)) : Nat :=
  ((tv.map Prod.fst).dedup).length

instance (tv : List (String × TaintVariable)) (n : String) :
    Decidable (TaintedHas tv n) := by
  unfold TaintedHas
  infer_instance

instance (tv : List (String × TaintVariable)) (g : List (String × List String)) :
    Decidable (EdgesHaveRecords tv g) := by
  unfold EdgesHaveRecords
  infer_instance

instance (tv : List (String × TaintVariable)) : Decidable (RecordsClosed tv) := by
  unfold RecordsClosed
  infer_instance

instance (tv : List (String × TaintVariable)) : Decidable (NoSelfLoop tv) := by
  unfold NoSelfLoop
  infer_instance

namespace FixedTA

/-- Guard of the inline-placeholder branch: either the callee is unresolvable
or not a source, or its parent is a direct assignment. -/
def sourceAssigned (parent : Parent) (func : PyExpr) : Bool :=
  let fn := getFullFuncName func
  if fn = "" then true
  else
    match isSourceFunction fn with
    | some _ =>
      (match parent with
       | .assignP _ _ => true
       | _ => false)
    | none => true

mutual

/-- Syntactic predicate mirroring the traversal: every call that the walker
classifies as a source occurs with a direct-assignment parent, so
`_process_source` never allocates an inline placeholder. -/
def noInlineExpr : Parent → PyExpr → Bool
  | _, .name _ => true
  | _, .constant => true
  | _, .attribute _ _ _ => true
  | parent, .call func args _ =>
    sourceAssigned parent func
    && noInlineExpr (Parent.callP func) func
    && noInlineExprList (Parent.callP func) args
  | _, .binOp l r => noInlineExpr .otherP l && noInlineExpr .otherP r
  | _, .unaryOp e => noInlineExpr .otherP e
  | parent, .subscript v idx =>
    noInlineExpr (.subscriptP parent) v && noInlineExpr (.subscriptP parent) idx
  | _, .joinedStr vals => noInlineExprList .otherP vals
  | _, .formattedValue v => noInlineExpr .otherP v

def noInlineExprList : Parent → PyExprList → Bool
  | _, .nil => true
  | p, .cons e rest => noInlineExpr p e && noInlineExprList p rest

end

mutual

def noInlineStmt : PyStmt → Bool
  | .assign targets value line =>
    noInlineExprList (.assignP targets line) targets &&
      noInlineExpr (.assignP targets line) value
  | .augAssign target value _ =>
    noInlineExpr .otherP target && noInlineExpr .otherP value
  | .exprStmt v => noInlineExpr .otherP v
  | .functionDef _ _ body _ => noInlineStmts body

def noInlineStmts : PyStmtList → Bool
  | .nil => true
  | .cons st rest => noInlineStmt st && noInlineStmts rest

end

end FixedTA

/-! ## Concrete source units used by the scenario claims -/

/-- Scenario A: `x = input()` then `os.system(x)`. -/
def progA : PyStmtList :=
  .cons (.assign (.cons (.name "x") .nil) (.call (.name "input") .nil 1) 1)
    (.cons (.exprStmt (.call (.attribute (.name "os") "system" 2)
             (.cons (.name "x") .nil) 2))
      .nil)

/-- Scenario C: `eval(input())`. -/
def progC : PyStmtList :=
  .cons (.exprStmt (.call (.name "eval")
           (.cons (.call (.name "input") .nil 1) .nil) 1)) .nil

/-- Self-reference assignment: `x = input()` then `x = x.strip()`. -/
def progSelf : PyStmtList :=
  .cons (.assign (.cons (.name "x") .nil) (.call (.name "input") .nil 1) 1)
    (.cons (.assign (.cons (.name "x") .nil)
             (.call (.attribute (.name "x") "strip" 2) .nil 2) 2)
      .nil)

/-- Tainted receiver at a sink: `x = input()` then `os.system(x.strip())`. -/
def progSinkRecv : PyStmtList :=
  .cons (.assign (.cons (.name "x") .nil) (.call (.name "input") .nil 1) 1)
    (.cons (.exprStmt (.call (.attribute (.name "os") "system" 2)
             (.cons (.call (.attribute (.name "x") "strip" 2) .nil 2) .nil) 2))
      .nil)

/-- Propagator assignment: `x = input()` then `clean = x.strip()`. -/
def progPropAssign : PyStmtList :=
  .cons (.assign (.cons (.name "x") .nil) (.call (.name "input") .nil 1) 1)
    (.cons (.assign (.cons (.name "clean") .nil)
             (.call (.attribute (.name "x") "strip" 2) .nil 2) 2)
      .nil)

/-- Scenario E: `def f(user_data): os.system(user_data)`. -/
def progE : PyStmtList :=
  .cons (.functionDef "f" ["user_data"]
          (.cons (.exprStmt (.call (.attribute (.name "os") "system" 2)
                   (.cons (.name "user_data") .nil) 2)) .nil) 1) .nil

/-- A store whose only record lists an unrecorded upstream name: the backward
trace returns a two-element path although only one variable is tainted. -/
def tvDangling : List (String × TaintVariable) :=
  [("a", ⟨"a", 1, .propagated, ["b"]⟩)]

/-- A two-record store with one propagation step, satisfying RecordsClosed. -/
def tvChain : List (String × TaintVariable) :=
  [("x", ⟨"x", 1, .userInput, []⟩), ("y", ⟨"y", 2, .propagated, ["x"]⟩)]

/-- A small analyzer state over tvChain with one edge, used to exercise the
invariant-preservation theorems at a concrete input. -/
def stateW : FixedTA.AState := ⟨tvChain, [], [("x", ["y"])], [], 0⟩

/-- An analyzer state for the original engine with one recorded variable. -/
def ostateW : OrigTA.OState := ⟨[("v", ⟨"v", 3, .webInput, []⟩)], [], []⟩

/-! ## Basic dictionary lemmas -/

theorem alookup_aset {α : Type} (m : List (String × α)) (k k' : String) (v : α) :
    alookup (aset m k v) k' = if k = k' then some v else alookup m k' := by
  induction m with
  | nil => simp [aset, alookup]
  | cons p rest ih =>
    obtain ⟨k0, v0⟩ := p
    simp only [aset]
    by_cases h0 : k0 = k
    · rw [if_pos h0]
      subst h0
      simp only [alookup]
      by_cases h1 : k0 = k' <;> simp [h1]
    · rw [if_neg h0]
      simp only [alookup, ih]
      by_cases h1 : k0 = k'
      · have h2 : ¬ k = k' := fun h => h0 (h1.trans h.symm)
        simp [h1, h2]
      · simp [h1]

theorem taintedHas_aset (m : List (String × TaintVariable)) (k n : String)
    (v : TaintVariable) : TaintedHas (aset m k v) n ↔ (k = n ∨ TaintedHas m n) := by
  simp only [TaintedHas, alookup_aset]
  split_ifs with h <;> simp [h]

theorem alookup_mem {α : Type} :
    ∀ (m : List (String × α)) (k : String) (v : α), alookup m k = some v → (k, v) ∈ m
  | [], k, v, h => by simp [alookup] at h
  | (k0, v0) :: rest, k, v, h => by
    by_cases h0 : k0 = k
    · subst h0
      have h' : v0 = v := by simpa [alookup] using h
      subst h'
      exact List.mem_cons_self _ _
    · simp only [alookup, if_neg h0] at h
      exact List.mem_cons_of_mem _ (alookup_mem rest k v h)

theorem aset_mem {α : Type} :
    ∀ (m : List (String × α)) (k : String) (v : α) (p : String × α),
      p ∈ aset m k v → p = (k, v) ∨ p ∈ m
  | [], k, v, p, h => by simpa [aset] using h
  | (k0, v0) :: rest, k, v, p, h => by
    simp only [aset] at h
    split_ifs at h with h0
    · rcases List.mem_cons.mp h with h1 | h1
      · exact Or.inl h1
      · exact Or.inr (List.mem_cons_of_mem _ h1)
    · rcases List.mem_cons.mp h with h1 | h1
      · exact Or.inr (h1 ▸ List.mem_cons_self _ _)
      · rcases aset_mem rest k v p h1 with h2 | h2
        · exact Or.inl h2
        · exact Or.inr (List.mem_cons_of_mem _ h2)

theorem taintedHas_iff_mem (tv : List (String × TaintVariable)) (n : String) :
    TaintedHas tv n ↔ n ∈ tv.map Prod.fst := by
  induction tv with
  | nil => simp [TaintedHas, alookup]
  | cons p rest ih =>
    obtain ⟨k0, v0⟩ := p
    simp only [TaintedHas, alookup, List.map_cons, List.mem_cons]
    split_ifs with h0
    · simp [h0]
    · simp only [TaintedHas] at ih
      rw [ih]
      constructor
      · exact Or.inr
      · rintro (h | h)
        · exact absurd h.symm h0
        · exact h

/-- Fold induction: a property preserved by every step holds of the result. -/
theorem foldlRec {α β : Type} {P : β → Prop} (f : β → α → β) :
    ∀ (l : List α) (b : β), P b → (∀ b' a, P b' → a ∈ l → P (f b' a)) →
      P (l.foldl f b)
  | [], _, hb, _ => hb
  | a :: l, b, hb, hf =>
    foldlRec f l (f b a) (hf b a hb (List.mem_cons_self a l))
      (fun b' a' hb' ha' => hf b' a' hb' (List.mem_cons_of_mem a ha'))

/-! ## Lemmas about markStep / markCore (the shared body of
FixedTaintAnalyzer._mark_as_tainted and
TaintAnalyzer._create_or_update_tainted_var) -/

namespace FixedTA

/-- Shape of the loop body: either the pair is unchanged, or the target's
record gains one source entry and the graph gains the corresponding edge. -/
theorem markStep_cases (varName : String)
    (acc : List (String × TaintVariable) × List (String × List String))
    (src : String) :
    markStep varName acc src = acc ∨
    ∃ v : TaintVariable, alookup acc.1 varName = some v ∧
      (alookup acc.1 src).isSome = true ∧ ¬ (src ∈ v.sources) ∧
      markStep varName acc src =
        (aset acc.1 varName { v with sources := v.sources ++ [src] },
         markGraphUpdate varName acc.2 src) := by
  unfold markStep
  rcases hv : alookup acc.1 varName with _ | v
  · exact Or.inl rfl
  · dsimp only
    split_ifs with hc
    · exact Or.inr ⟨v, rfl, hc.1, hc.2, rfl⟩
    · exact Or.inl rfl

theorem markStep_taintedHas (varName : String)
    (acc : List (String × TaintVariable) × List (String × List String))
    (src : String) (n : String) :
    TaintedHas (markStep varName acc src).1 n ↔ TaintedHas acc.1 n := by
  rcases markStep_cases varName acc src with h | ⟨v, hv, _, _, h⟩
  · rw [h]
  · have hhas : TaintedHas acc.1 varName := by simp [TaintedHas, hv]
    rw [h]
    show TaintedHas (aset acc.1 varName _) n ↔ _
    rw [taintedHas_aset]
    constructor
    · rintro (hh | hh)
      · exact hh ▸ hhas
      · exact hh
    · exact Or.inr

theorem markEnsure_taintedHas (varName : String) (line : Nat) (ty : TaintType)
    (tv : List (String × TaintVariable)) (n : String) :
    TaintedHas (markEnsure varName line ty tv) n ↔ (varName = n ∨ TaintedHas tv n) := by
  unfold markEnsure
  split_ifs with hc
  · constructor
    · exact Or.inr
    · rintro (h | h)
      · subst h
        exact hc
      · exact h
  · exact taintedHas_aset tv varName n _

theorem markCore_taintedHas (varName : String) (line : Nat) (ty : TaintType)
    (srcs : List String) (tv : List (String × TaintVariable))
    (g : List (String × List String)) (n : String) :
    TaintedHas (markCore varName line ty srcs tv g).1 n ↔
      (varName = n ∨ TaintedHas tv n) := by
  unfold markCore
  have h := foldlRec (P := fun acc => ∀ m, TaintedHas acc.1 m ↔
      TaintedHas (markEnsure varName line ty tv) m)
    (markStep varName) srcs (markEnsure varName line ty tv, g)
    (fun _ => Iff.rfl)
    (fun acc a hacc _ m => (markStep_taintedHas varName acc a m).trans (hacc m))
  rw [h n, markEnsure_taintedHas]

/-- Shape of the graph update: an old entry, a fresh empty entry for the
upstream name, or the upstream entry extended with the target. -/
theorem markGraphUpdate_mem (varName : String) (g : List (String × List String))
    (src : String) :
    ∀ p ∈ markGraphUpdate varName g src,
      p ∈ g ∨ p = (src, []) ∨
      ∃ tgts, ((src, tgts) ∈ g ∨ tgts = []) ∧ p = (src, tgts ++ [varName]) := by
  intro p hp
  unfold markGraphUpdate at hp
  by_cases hg : (alookup g src).isSome = true
  · rw [if_pos hg] at hp
    dsimp only at hp
    rcases hs : alookup g src with _ | tgts0
    · rw [hs] at hg
      simp at hg
    · rw [hs] at hp
      dsimp only [Option.getD] at hp
      by_cases hin : varName ∈ tgts0
      · rw [if_pos hin] at hp
        exact Or.inl hp
      · rw [if_neg hin] at hp
        rcases aset_mem g src (tgts0 ++ [varName]) p hp with h1 | h1
        · exact Or.inr (Or.inr ⟨tgts0, Or.inl (alookup_mem g src tgts0 hs), h1⟩)
        · exact Or.inl h1
  · rw [if_neg hg] at hp
    dsimp only at hp
    have hs : alookup (aset g src ([] : List String)) src = some [] := by
      simp [alookup_aset]
    rw [hs] at hp
    dsimp only [Option.getD] at hp
    rw [if_neg (List.not_mem_nil varName)] at hp
    rcases aset_mem (aset g src []) src ([] ++ [varName]) p hp with h1 | h1
    · exact Or.inr (Or.inr ⟨[], Or.inr rfl, h1⟩)
    · rcases aset_mem g src [] p h1 with h2 | h2
      · exact Or.inr (Or.inl h2)
      · exact Or.inl h2

theorem markStep_edges (varName : String)
    (acc : List (String × TaintVariable) × List (String × List String))
    (src : String) (h : EdgesHaveRecords acc.1 acc.2) :
    EdgesHaveRecords (markStep varName acc src).1 (markStep varName acc src).2 := by
  rcases markStep_cases varName acc src with h1 | ⟨v, hv, hsrc, _, h1⟩
  · rw [h1]
    exact h
  · rw [h1]
    have hmono : ∀ n, TaintedHas acc.1 n →
        TaintedHas (aset acc.1 varName { v with sources := v.sources ++ [src] }) n :=
      fun n hn => (taintedHas_aset _ _ _ _).mpr (Or.inr hn)
    have hvar : TaintedHas (aset acc.1 varName { v with sources := v.sources ++ [src] })
        varName := (taintedHas_aset _ _ _ _).mpr (Or.inl rfl)
    intro p hp
    rcases markGraphUpdate_mem varName acc.2 src p hp with h2 | h2 | ⟨tgts, h3, h2⟩
    · exact ⟨hmono _ (h p h2).1, fun t ht => hmono _ ((h p h2).2 t ht)⟩
    · subst h2
      exact ⟨hmono _ hsrc, by simp⟩
    · subst h2
      refine ⟨hmono _ hsrc, fun t ht => ?_⟩
      rcases List.mem_append.mp ht with ht1 | ht1
      · rcases h3 with h3 | h3
        · exact hmono _ ((h _ h3).2 t ht1)
        · subst h3
          cases ht1
      · have : t = varName := by simpa using ht1
        exact this ▸ hvar

theorem markStep_closed (varName : String)
    (acc : List (String × TaintVariable) × List (String × List String))
    (src : String) (h : RecordsClosed acc.1) :
    RecordsClosed (markStep varName acc src).1 := by
  rcases markStep_cases varName acc src with h1 | ⟨v, hv, hsrc, _, h1⟩
  · rw [h1]
    exact h
  · rw [h1]
    have hmono : ∀ n, TaintedHas acc.1 n →
        TaintedHas (aset acc.1 varName { v with sources := v.sources ++ [src] }) n :=
      fun n hn => (taintedHas_aset _ _ _ _).mpr (Or.inr hn)
    intro p hp
    rcases aset_mem _ _ _ p hp with h2 | h2
    · subst h2
      intro n hn
      rcases List.mem_append.mp hn with hn1 | hn1
      · exact hmono _ (h _ (alookup_mem _ _ _ hv) n hn1)
      · have : n = src := by simpa using hn1
        exact this ▸ hmono _ hsrc
    · exact fun n hn => hmono _ (h p h2 n hn)

theorem markStep_noSelfLoop (varName : String)
    (acc : List (String × TaintVariable) × List (String × List String))
    (src : String) (h : NoSelfLoop acc.1) (hne : ¬ src = varName) :
    NoSelfLoop (markStep varName acc src).1 := by
  rcases markStep_cases varName acc src with h1 | ⟨v, hv, _, _, h1⟩
  · rw [h1]
    exact h
  · rw [h1]
    intro p hp
    rcases aset_mem _ _ _ p hp with h2 | h2
    · subst h2
      intro hmem
      rcases List.mem_append.mp hmem with h3 | h3
      · exact h _ (alookup_mem _ _ _ hv) h3
      · have h4 : varName = src := by simpa using h3
        exact hne h4.symm
    · exact h p h2

theorem markStep_record (varName : String)
    (acc : List (String × TaintVariable) × List (String × List String))
    (src : String) (nm : String) (ln : Nat) (t : TaintType) (s0 : List String)
    (h : ∃ l, alookup acc.1 varName = some ⟨nm, ln, t, s0 ++ l⟩) :
    ∃ l, alookup (markStep varName acc src).1 varName = some ⟨nm, ln, t, s0 ++ l⟩ := by
  rcases markStep_cases varName acc src with h1 | ⟨v, hv, _, _, h1⟩
  · rw [h1]
    exact h
  · obtain ⟨l, hl⟩ := h
    rw [h1]
    have hveq : v = ⟨nm, ln, t, s0 ++ l⟩ := by
      have h2 := hv.symm.trans hl
      injection h2
    refine ⟨l ++ [src], ?_⟩
    show alookup (aset acc.1 varName _) varName = _
    rw [alookup_aset, if_pos rfl]
    subst hveq
    simp

/-- Adding a fresh empty-sources record preserves the edge invariant. -/
theorem aset_edges (n : String) (line : Nat) (ty : TaintType)
    (tv : List (String × TaintVariable)) (g : List (String × List String))
    (h : EdgesHaveRecords tv g) :
    EdgesHaveRecords (aset tv n ⟨n, line, ty, []⟩) g := by
  intro p hp
  have hmono : ∀ m, TaintedHas tv m → TaintedHas (aset tv n ⟨n, line, ty, []⟩) m :=
    fun m hm => (taintedHas_aset _ _ _ _).mpr (Or.inr hm)
  exact ⟨hmono _ (h p hp).1, fun t ht => hmono _ ((h p hp).2 t ht)⟩

/-- Adding a fresh empty-sources record preserves record closure. -/
theorem aset_closed (n : String) (line : Nat) (ty : TaintType)
    (tv : List (String × TaintVariable)) (h : RecordsClosed tv) :
    RecordsClosed (aset tv n ⟨n, line, ty, []⟩) := by
  intro p hp
  have hmono : ∀ m, TaintedHas tv m → TaintedHas (aset tv n ⟨n, line, ty, []⟩) m :=
    fun m hm => (taintedHas_aset _ _ _ _).mpr (Or.inr hm)
  rcases aset_mem _ _ _ p hp with h1 | h1
  · subst h1
    intro m hm
    cases hm
  · exact fun m hm => hmono _ (h p h1 m hm)

/-- Adding a fresh empty-sources record preserves the no-self-loop invariant. -/
theorem aset_noSelfLoop (n : String) (line : Nat) (ty : TaintType)
    (tv : List (String × TaintVariable)) (h : NoSelfLoop tv) :
    NoSelfLoop (aset tv n ⟨n, line, ty, []⟩) := by
  intro p hp
  rcases aset_mem _ _ _ p hp with h1 | h1
  · subst h1
    exact List.not_mem_nil _
  · exact h p h1

theorem markEnsure_edges (varName : String) (line : Nat) (ty : TaintType)
    (tv : List (String × TaintVariable)) (g : List (String × List String))
    (h : EdgesHaveRecords tv g) :
    EdgesHaveRecords (markEnsure varName line ty tv) g := by
  unfold markEnsure
  split_ifs
  · exact h
  · exact aset_edges varName line ty tv g h

theorem markEnsure_closed (varName : String) (line : Nat) (ty : TaintType)
    (tv : List (String × TaintVariable)) (h : RecordsClosed tv) :
    RecordsClosed (markEnsure varName line ty tv) := by
  unfold markEnsure
  split_ifs
  · exact h
  · exact aset_closed varName line ty tv h

theorem markEnsure_noSelfLoop (varName : String) (line : Nat) (ty : TaintType)
    (tv : List (String × TaintVariable)) (h : NoSelfLoop tv) :
    NoSelfLoop (markEnsure varName line ty tv) := by
  unfold markEnsure
  split_ifs
  · exact h
  · exact aset_noSelfLoop varName line ty tv h

theorem markCore_edges (varName : String) (line : Nat) (ty : TaintType)
    (srcs : List String) (tv : List (String × TaintVariable))
    (g : List (String × List String)) (h : EdgesHaveRecords tv g) :
    EdgesHaveRecords (markCore varName line ty srcs tv g).1
      (markCore varName line ty srcs tv g).2 := by
  unfold markCore
  exact foldlRec (P := fun acc => EdgesHaveRecords acc.1 acc.2) (markStep varName)
    srcs (markEnsure varName line ty tv, g)
    (markEnsure_edges varName line ty tv g h)
    (fun acc a hacc _ => markStep_edges varName acc a hacc)

theorem markCore_closed (varName : String) (line : Nat) (ty : TaintType)
    (srcs : List String) (tv : List (String × TaintVariable))
    (g : List (String × List String)) (h : RecordsClosed tv) :
    RecordsClosed (markCore varName line ty srcs tv g).1 := by
  unfold markCore
  exact foldlRec (P := fun acc => RecordsClosed acc.1) (markStep varName)
    srcs (markEnsure varName line ty tv, g)
    (markEnsure_closed varName line ty tv h)
    (fun acc a hacc _ => markStep_closed varName acc a hacc)

/-- When the marked variable is not among the upstream names, no self-loop can
be introduced. -/
theorem markCore_noSelfLoop (varName : String) (line : Nat) (ty : TaintType)
    (srcs : List String) (tv : List (String × TaintVariable))
    (g : List (String × List String)) (h : NoSelfLoop tv)
    (hout : ¬ varName ∈ srcs) :
    NoSelfLoop (markCore varName line ty srcs tv g).1 := by
  unfold markCore
  exact foldlRec (P := fun acc => NoSelfLoop acc.1) (markStep varName)
    srcs (markEnsure varName line ty tv, g)
    (markEnsure_noSelfLoop varName line ty tv h)
    (fun acc a hacc ha =>
      markStep_noSelfLoop varName acc a hacc (fun he => hout (he ▸ ha)))

/-- Re-marking an existing record never changes its name, line or kind, and
only appends to its sources (claim C8's core). -/
theorem markCore_existing (varName : String) (line : Nat) (ty : TaintType)
    (srcs : List String) (tv : List (String × TaintVariable))
    (g : List (String × List String)) (v : TaintVariable)
    (h : alookup tv varName = some v) :
    ∃ l, alookup (markCore varName line ty srcs tv g).1 varName =
      some ⟨v.name, v.line, v.type, v.sources ++ l⟩ := by
  unfold markCore
  have hinit : ∃ l, alookup (markEnsure varName line ty tv, g).1 varName =
      some ⟨v.name, v.line, v.type, v.sources ++ l⟩ := by
    refine ⟨[], ?_⟩
    show alookup (markEnsure varName line ty tv) varName = _
    unfold markEnsure
    rw [if_pos (by simp [h])]
    simpa using h
  exact foldlRec
    (P := fun acc => ∃ l, alookup acc.1 varName =
      some ⟨v.name, v.line, v.type, v.sources ++ l⟩)
    (markStep varName) srcs (markEnsure varName line ty tv, g) hinit
    (fun acc a hacc _ => markStep_record varName acc a v.name v.line v.type v.sources hacc)

/-! ### Generic preservation over the traversal

Every mutation of the taint store or the propagation graph in the fixed
analyzer goes through exactly two primitives: `markCore` (the body of
`_mark_as_tainted`) and the direct record-creating assignment
`tainted_vars[n] = TaintVariable(n, line, ty)` (modelled by `aset` with an
empty-sources record).  The following lemmas show that any predicate over
(store, graph) preserved by those two primitives is preserved by the whole
traversal. -/

section Preservation

variable {Q : List (String × TaintVariable) → List (String × List String) → Prop}

/-- Preservation hypotheses for the two state-writing primitives. -/
def MarkPres (Q : List (String × TaintVariable) → List (String × List String) → Prop) :
    Prop :=
  ∀ varName line ty srcs tv g, Q tv g →
    Q (markCore varName line ty srcs tv g).1 (markCore varName line ty srcs tv g).2

def SetPres (Q : List (String × TaintVariable) → List (String × List String) → Prop) :
    Prop :=
  ∀ n line ty tv g, Q tv g → Q (aset tv n ⟨n, line, ty, []⟩) g

theorem markAsTainted_inv (hmark : MarkPres Q) (varName : String) (line : Nat)
    (ty : TaintType) (srcs : List String) (s : AState)
    (h : Q s.taintedVars s.propagationGraph) :
    Q (markAsTainted varName line ty srcs s).taintedVars
      (markAsTainted varName line ty srcs s).propagationGraph :=
  hmark varName line ty srcs s.taintedVars s.propagationGraph h

theorem recordTargets_inv (hset : SetPres Q) :
    ∀ (targets : PyExprList) (line : Nat) (ty : TaintType) (s : AState),
      Q s.taintedVars s.propagationGraph →
      Q (recordTargets targets line ty s).taintedVars
        (recordTargets targets line ty s).propagationGraph
  | .nil, _, _, _, h => h
  | .cons e rest, line, ty, s, h => by
    cases e
    case name n =>
      exact recordTargets_inv hset rest line ty _
        (hset n line ty s.taintedVars s.propagationGraph h)
    all_goals exact recordTargets_inv hset rest line ty _ h

theorem markTargets_inv (hmark : MarkPres Q) :
    ∀ (targets : PyExprList) (line : Nat) (ty : TaintType) (srcs : List String)
      (s : AState), Q s.taintedVars s.propagationGraph →
      Q (markTargets targets line ty srcs s).taintedVars
        (markTargets targets line ty srcs s).propagationGraph
  | .nil, _, _, _, _, h => h
  | .cons e rest, line, ty, srcs, s, h => by
    cases e
    case name n =>
      exact markTargets_inv hmark rest line ty srcs _
        (markAsTainted_inv hmark n line ty srcs s h)
    all_goals exact markTargets_inv hmark rest line ty srcs _ h

theorem processSource_inv (hset : SetPres Q) (ids : Nat → Nat) (parent : Parent)
    (line : Nat) (ty : TaintType) (s : AState)
    (h : Q s.taintedVars s.propagationGraph) :
    Q (processSource ids parent line ty s).taintedVars
      (processSource ids parent line ty s).propagationGraph := by
  cases parent
  case assignP targets l => exact recordTargets_inv hset targets line ty s h
  all_goals exact hset _ line ty s.taintedVars s.propagationGraph h

/-- Sink processing touches only the vulnerability-path list. -/
theorem sinkOneArg_state (funcName : String) (i : Nat) (arg : PyExpr) (s : AState) :
    (sinkOneArg funcName i arg s).taintedVars = s.taintedVars ∧
    (sinkOneArg funcName i arg s).propagationGraph = s.propagationGraph ∧
    (sinkOneArg funcName i arg s).directSources = s.directSources ∧
    (sinkOneArg funcName i arg s).counter = s.counter := by
  unfold sinkOneArg
  refine foldlRec (P := fun s' => s'.taintedVars = s.taintedVars ∧
    s'.propagationGraph = s.propagationGraph ∧
    s'.directSources = s.directSources ∧ s'.counter = s.counter) _ _ s
    ⟨rfl, rfl, rfl, rfl⟩ ?_
  intro s' a hs' _
  dsimp only
  split
  · exact hs'
  · exact hs'

theorem processSinkArgs_state (funcName : String) :
    ∀ (i : Nat) (args : PyExprList) (s : AState),
      (processSinkArgs funcName i args s).taintedVars = s.taintedVars ∧
      (processSinkArgs funcName i args s).propagationGraph = s.propagationGraph ∧
      (processSinkArgs funcName i args s).directSources = s.directSources ∧
      (processSinkArgs funcName i args s).counter = s.counter
  | _, .nil, _ => ⟨rfl, rfl, rfl, rfl⟩
  | i, .cons a rest, s => by
    have h1 := sinkOneArg_state funcName i a s
    have h2 := processSinkArgs_state funcName (i + 1) rest (sinkOneArg funcName i a s)
    exact ⟨h2.1.trans h1.1, h2.2.1.trans h1.2.1,
           h2.2.2.1.trans h1.2.2.1, h2.2.2.2.trans h1.2.2.2⟩

theorem processSink_inv (funcName : String) (args : PyExprList) (s : AState)
    (h : Q s.taintedVars s.propagationGraph) :
    Q (processSink funcName args s).taintedVars
      (processSink funcName args s).propagationGraph := by
  have h1 := processSinkArgs_state funcName 0 args s
  unfold processSink
  rw [h1.1, h1.2.1]
  exact h

theorem processPropagator_inv (hmark : MarkPres Q) (func : PyExpr)
    (args : PyExprList) (parent : Parent) (line : Nat) (s : AState)
    (h : Q s.taintedVars s.propagationGraph) :
    Q (processPropagator func args parent line s).taintedVars
      (processPropagator func args parent line s).propagationGraph := by
  unfold processPropagator
  dsimp only
  repeat' split
  all_goals first
    | exact h
    | exact markTargets_inv hmark _ _ _ _ _ h

theorem visitAttribute_inv (hset : SetPres Q) (parent : Parent) (v : PyExpr)
    (a : String) (line : Nat) (s : AState)
    (h : Q s.taintedVars s.propagationGraph) :
    Q (visitAttribute parent v a line s).taintedVars
      (visitAttribute parent v a line s).propagationGraph := by
  unfold visitAttribute
  dsimp only
  repeat' split
  all_goals first
    | exact h
    | exact recordTargets_inv hset _ _ _ _ h
    | exact recordTargets_inv hset _ _ _ _ (recordTargets_inv hset _ _ _ _ h)

theorem processCall_inv (hmark : MarkPres Q) (hset : SetPres Q) (ids : Nat → Nat)
    (parent : Parent) (func : PyExpr) (args : PyExprList) (line : Nat) (s : AState)
    (h : Q s.taintedVars s.propagationGraph) :
    Q (processCall ids parent func args line s).taintedVars
      (processCall ids parent func args line s).propagationGraph := by
  unfold processCall
  dsimp only
  repeat' split
  all_goals first
    | exact h
    | exact processSource_inv hset _ _ _ _ _ h
    | exact processSink_inv _ _ _ h
    | exact processSink_inv _ _ _ (processSource_inv hset _ _ _ _ _ h)
    | exact processPropagator_inv hmark _ _ _ _ _ h
    | exact processPropagator_inv hmark _ _ _ _ _ (processSource_inv hset _ _ _ _ _ h)
    | exact processPropagator_inv hmark _ _ _ _ _ (processSink_inv _ _ _ h)
    | exact processPropagator_inv hmark _ _ _ _ _
        (processSink_inv _ _ _ (processSource_inv hset _ _ _ _ _ h))

mutual

theorem visitExpr_inv (hmark : MarkPres Q) (hset : SetPres Q) (ids : Nat → Nat) :
    ∀ (parent : Parent) (e : PyExpr) (s : AState),
      Q s.taintedVars s.propagationGraph →
      Q (visitExpr ids parent e s).taintedVars
        (visitExpr ids parent e s).propagationGraph
  | _, .name _, _, h => h
  | _, .constant, _, h => h
  | parent, .attribute v a line, s, h => visitAttribute_inv hset parent v a line s h
  | parent, .call func args line, s, h =>
    visitExprList_inv hmark hset ids _ args _
      (visitExpr_inv hmark hset ids _ func _
        (processCall_inv hmark hset ids parent func args line s h))
  | _, .binOp l r, _, h =>
    visitExpr_inv hmark hset ids _ r _ (visitExpr_inv hmark hset ids _ l _ h)
  | _, .unaryOp e, _, h => visitExpr_inv hmark hset ids _ e _ h
  | _, .subscript v idx, _, h =>
    visitExpr_inv hmark hset ids _ idx _ (visitExpr_inv hmark hset ids _ v _ h)
  | _, .joinedStr vals, _, h => visitExprList_inv hmark hset ids _ vals _ h
  | _, .formattedValue v, _, h => visitExpr_inv hmark hset ids _ v _ h

theorem visitExprList_inv (hmark : MarkPres Q) (hset : SetPres Q) (ids : Nat → Nat) :
    ∀ (parent : Parent) (es : PyExprList) (s : AState),
      Q s.taintedVars s.propagationGraph →
      Q (visitExprList ids parent es s).taintedVars
        (visitExprList ids parent es s).propagationGraph
  | _, .nil, _, h => h
  | parent, .cons e rest, s, h =>
    visitExprList_inv hmark hset ids parent rest _
      (visitExpr_inv hmark hset ids parent e s h)

end

mutual

theorem visitStmt_inv (hmark : MarkPres Q) (hset : SetPres Q) (ids : Nat → Nat) :
    ∀ (st : PyStmt) (s : AState),
      Q s.taintedVars s.propagationGraph →
      Q (visitStmt ids st s).taintedVars (visitStmt ids st s).propagationGraph
  | .assign targets value line, s, h => by
    dsimp only [visitStmt]
    apply visitExpr_inv hmark hset
    apply visitExprList_inv hmark hset
    split
    · exact h
    · exact markTargets_inv hmark _ _ _ _ _ h
  | .augAssign target value line, s, h => by
    dsimp only [visitStmt]
    apply visitExpr_inv hmark hset
    apply visitExpr_inv hmark hset
    repeat' split
    all_goals first
      | exact h
      | exact markAsTainted_inv hmark _ _ _ _ _ h
  | .exprStmt value, s, h => visitExpr_inv hmark hset ids _ value s h
  | .functionDef _ _ body _, s, h => visitStmtList_inv hmark hset ids body s h

theorem visitStmtList_inv (hmark : MarkPres Q) (hset : SetPres Q) (ids : Nat → Nat) :
    ∀ (body : PyStmtList) (s : AState),
      Q s.taintedVars s.propagationGraph →
      Q (visitStmtList ids body s).taintedVars
        (visitStmtList ids body s).propagationGraph
  | .nil, _, h => h
  | .cons st rest, s, h =>
    visitStmtList_inv hmark hset ids rest _ (visitStmt_inv hmark hset ids st s h)

end

/-- The deferred fix-up pass touches only the vulnerability-path list. -/
theorem processDirect_state (s : AState) :
    (processDirectVulnerabilities s).taintedVars = s.taintedVars ∧
    (processDirectVulnerabilities s).propagationGraph = s.propagationGraph := by
  unfold processDirectVulnerabilities
  refine foldlRec (P := fun s' => s'.taintedVars = s.taintedVars ∧
    s'.propagationGraph = s.propagationGraph) _ _ s ⟨rfl, rfl⟩ ?_
  intro s' entry hs' _
  dsimp only
  repeat' split
  all_goals exact hs'

theorem runState_inv (hmark : MarkPres Q) (hset : SetPres Q) (ids : Nat → Nat)
    (body : PyStmtList) (h0 : Q [] []) :
    Q (runState ids body).taintedVars (runState ids body).propagationGraph := by
  unfold runState
  have h1 := visitStmtList_inv hmark hset ids body initState h0
  have h2 := processDirect_state (visitStmtList ids body initState)
  rw [h2.1, h2.2]
  exact h1

end Preservation

/-- Instantiations of the two primitive-preservation hypotheses. -/
theorem edges_markPres : MarkPres (fun tv g => EdgesHaveRecords tv g) :=
  fun varName line ty srcs tv g h => markCore_edges varName line ty srcs tv g h

theorem edges_setPres : SetPres (fun tv g => EdgesHaveRecords tv g) :=
  fun n line ty tv g h => aset_edges n line ty tv g h

theorem closed_markPres : MarkPres (fun tv _ => RecordsClosed tv) :=
  fun varName line ty srcs tv g h => markCore_closed varName line ty srcs tv g h

theorem closed_setPres : SetPres (fun tv _ => RecordsClosed tv) :=
  fun n line ty tv _ h => aset_closed n line ty tv h

/-! ### Properties of the backward path tracer -/

theorem traceAux_nodup (tv : List (String × TaintVariable)) :
    ∀ (fuel : Nat) (current : String) (visited path : List String),
      path.Nodup → (∀ x ∈ path, x = current ∨ x ∈ visited) →
      (traceAux tv fuel current visited path).Nodup
  | 0, _, _, _, hnd, _ => hnd
  | fuel + 1, current, visited, path, hnd, hsub => by
    unfold traceAux
    rcases hv : alookup tv current with _ | v
    · exact hnd
    · dsimp only
      split_ifs with h1
      · exact hnd
      · rcases hs : v.sources with _ | ⟨next, rest⟩
        · exact hnd
        · dsimp only
          split_ifs with h2
          · exact hnd
          · apply traceAux_nodup tv fuel next (current :: visited) (next :: path)
            · refine List.nodup_cons.mpr ⟨?_, hnd⟩
              intro hmem
              rcases hsub next hmem with h3 | h3
              · exact h2 (h3 ▸ List.mem_cons_self _ _)
              · exact h2 (List.mem_cons_of_mem _ h3)
            · intro x hx
              rcases List.mem_cons.mp hx with h3 | h3
              · exact Or.inl h3
              · rcases hsub x h3 with h4 | h4
                · exact Or.inr (h4 ▸ List.mem_cons_self _ _)
                · exact Or.inr (List.mem_cons_of_mem _ h4)

theorem traceAux_subset (tv : List (String × TaintVariable)) (hcl : RecordsClosed tv) :
    ∀ (fuel : Nat) (current : String) (visited path : List String),
      (∀ x ∈ path, TaintedHas tv x) →
      ∀ x ∈ traceAux tv fuel current visited path, TaintedHas tv x
  | 0, _, _, _, hp, x, hx => hp x hx
  | fuel + 1, current, visited, path, hp, x, hx => by
    rw [traceAux] at hx
    rcases hv : alookup tv current with _ | v
    · rw [hv] at hx
      exact hp x hx
    · rw [hv] at hx
      dsimp only at hx
      split_ifs at hx with h1
      · exact hp x hx
      · rcases hs : v.sources with _ | ⟨next, rest⟩
        · rw [hs] at hx
          exact hp x hx
        · rw [hs] at hx
          dsimp only at hx
          split_ifs at hx with h2
          · exact hp x hx
          · have hnext : TaintedHas tv next :=
              hcl _ (alookup_mem tv current v hv) next (hs ▸ List.mem_cons_self _ _)
            refine traceAux_subset tv hcl fuel next (current :: visited) (next :: path)
              ?_ x hx
            intro y hy
            rcases List.mem_cons.mp hy with h3 | h3
            · exact h3 ▸ hnext
            · exact hp y h3

theorem tracePath_nodup (tv : List (String × TaintVariable)) (startVar : String) :
    (tracePath tv startVar).Nodup := by
  unfold tracePath
  split_ifs with h
  · apply traceAux_nodup tv _ startVar [] [startVar] (List.nodup_singleton _)
    intro x hx
    exact Or.inl (by simpa using hx)
  · exact List.nodup_nil

theorem tracePath_subset (tv : List (String × TaintVariable)) (startVar : String)
    (hcl : RecordsClosed tv) : ∀ x ∈ tracePath tv startVar, TaintedHas tv x := by
  unfold tracePath
  split_ifs with h
  · apply traceAux_subset tv hcl
    intro x hx
    have : x = startVar := by simpa using hx
    exact this ▸ h
  · intro x hx
    cases hx

/-- Under record closure, the traced path cannot be longer than the number of
distinct tainted variables. -/
theorem tracePath_length (tv : List (String × TaintVariable)) (startVar : String)
    (hcl : RecordsClosed tv) :
    (tracePath tv startVar).length ≤ distinctCount tv := by
  have hnd := tracePath_nodup tv startVar
  have hsub := tracePath_subset tv startVar hcl
  rw [← List.toFinset_card_of_nodup hnd]
  unfold distinctCount
  rw [← List.card_toFinset]
  apply Finset.card_le_card
  intro x hx
  rw [List.mem_toFinset] at hx
  rw [List.mem_toFinset]
  exact (taintedHas_iff_mem tv x).mp (hsub x hx)

/-- Fuel independence of the trace loop: any two fuels exceeding the number of
unvisited recorded names give the same result (the loop terminates). -/
theorem traceAux_stable (tv : List (String × TaintVariable)) :
    ∀ (f1 f2 : Nat) (current : String) (visited path : List String),
      ((tv.map Prod.fst).toFinset \ visited.toFinset).card < f1 →
      ((tv.map Prod.fst).toFinset \ visited.toFinset).card < f2 →
      traceAux tv f1 current visited path = traceAux tv f2 current visited path
  | 0, _, _, _, _, h1, _ => absurd h1 (Nat.not_lt_zero _)
  | _ + 1, 0, _, _, _, _, h2 => absurd h2 (Nat.not_lt_zero _)
  | f1 + 1, f2 + 1, current, visited, path, h1, h2 => by
    rw [traceAux, traceAux]
    rcases hv : alookup tv current with _ | v
    · rfl
    · dsimp only
      split_ifs with hin
      · rfl
      · rcases hs : v.sources with _ | ⟨next, rest⟩
        · rfl
        · dsimp only
          split_ifs with h3
          · rfl
          · have hcurkeys : current ∈ (tv.map Prod.fst).toFinset := by
              rw [List.mem_toFinset]
              exact (taintedHas_iff_mem tv current).mp (by simp [TaintedHas, hv])
            have hcur : current ∈ (tv.map Prod.fst).toFinset \ visited.toFinset := by
              rw [Finset.mem_sdiff]
              exact ⟨hcurkeys, by simpa [List.mem_toFinset] using hin⟩
            have hmeas : ((tv.map Prod.fst).toFinset \ (current :: visited).toFinset).card <
                ((tv.map Prod.fst).toFinset \ visited.toFinset).card := by
              rw [List.toFinset_cons, Finset.sdiff_insert]
              exact Finset.card_erase_lt_of_mem hcur
            exact traceAux_stable tv f1 f2 next (current :: visited) (next :: path)
              (Nat.lt_of_lt_of_le hmeas (Nat.lt_succ_iff.mp h1))
              (Nat.lt_of_lt_of_le hmeas (Nat.lt_succ_iff.mp h2))

/-- Any fuel of at least `tv.length + 1` yields the canonical trace. -/
theorem traceAux_fuel (tv : List (String × TaintVariable)) (startVar : String)
    (fuel : Nat) (hf : tv.length + 1 ≤ fuel) :
    traceAux tv fuel startVar [] [startVar] =
      traceAux tv (tv.length + 1) startVar [] [startVar] := by
  have hcard : ((tv.map Prod.fst).toFinset \ ([] : List String).toFinset).card ≤
      tv.length := by
    have h1 : ((tv.map Prod.fst).toFinset \ ([] : List String).toFinset).card ≤
        (tv.map Prod.fst).toFinset.card :=
      Finset.card_le_card (Finset.sdiff_subset)
    have h2 : (tv.map Prod.fst).toFinset.card ≤ (tv.map Prod.fst).length := by
      rw [List.card_toFinset]
      exact (List.dedup_sublist _).length_le
    have h3 : (tv.map Prod.fst).length = tv.length := List.length_map _ _
    omega
  exact traceAux_stable tv fuel (tv.length + 1) startVar [] [startVar]
    (by omega) (by omega)

/-! ### Independence from the node-id oracle

The oracle `ids` (CPython's `id(node)`) is consulted only when
`_process_source` allocates an inline placeholder.  When every
source-classified call is directly assigned, the whole run is the same
function of the tree for any two oracles. -/

theorem processCall_ids (ids1 ids2 : Nat → Nat) (parent : Parent) (func : PyExpr)
    (args : PyExprList) (line : Nat) (s : AState)
    (h : sourceAssigned parent func = true) :
    processCall ids1 parent func args line s = processCall ids2 parent func args line s := by
  unfold processCall
  unfold sourceAssigned at h
  dsimp only at h ⊢
  by_cases hfn : getFullFuncName func = ""
  · rw [if_pos hfn, if_pos hfn]
  · rw [if_neg hfn, if_neg hfn]
    rw [if_neg hfn] at h
    rcases hsrc : isSourceFunction (getFullFuncName func) with _ | ty
    · rfl
    · cases parent
      all_goals first | rfl | simp [hsrc] at h

mutual

theorem visitExpr_ids (ids1 ids2 : Nat → Nat) :
    ∀ (parent : Parent) (e : PyExpr) (s : AState), noInlineExpr parent e = true →
      visitExpr ids1 parent e s = visitExpr ids2 parent e s
  | _, .name _, _, _ => rfl
  | _, .constant, _, _ => rfl
  | _, .attribute _ _ _, _, _ => rfl
  | parent, .call func args line, s, h => by
    simp only [noInlineExpr, Bool.and_eq_true] at h
    obtain ⟨⟨h1, h2⟩, h3⟩ := h
    show visitExprList ids1 (Parent.callP func) args
        (visitExpr ids1 (Parent.callP func) func (processCall ids1 parent func args line s)) =
      visitExprList ids2 (Parent.callP func) args
        (visitExpr ids2 (Parent.callP func) func (processCall ids2 parent func args line s))
    rw [processCall_ids ids1 ids2 parent func args line s h1,
        visitExpr_ids ids1 ids2 (Parent.callP func) func _ h2,
        visitExprList_ids ids1 ids2 (Parent.callP func) args _ h3]
  | _, .binOp l r, s, h => by
    simp only [noInlineExpr, Bool.and_eq_true] at h
    obtain ⟨h1, h2⟩ := h
    show visitExpr ids1 Parent.otherP r (visitExpr ids1 Parent.otherP l s) =
      visitExpr ids2 Parent.otherP r (visitExpr ids2 Parent.otherP l s)
    rw [visitExpr_ids ids1 ids2 Parent.otherP l s h1,
        visitExpr_ids ids1 ids2 Parent.otherP r _ h2]
  | _, .unaryOp e, s, h => by
    simp only [noInlineExpr] at h
    exact visitExpr_ids ids1 ids2 Parent.otherP e s h
  | parent, .subscript v idx, s, h => by
    simp only [noInlineExpr, Bool.and_eq_true] at h
    obtain ⟨h1, h2⟩ := h
    show visitExpr ids1 (Parent.subscriptP parent) idx
        (visitExpr ids1 (Parent.subscriptP parent) v s) =
      visitExpr ids2 (Parent.subscriptP parent) idx
        (visitExpr ids2 (Parent.subscriptP parent) v s)
    rw [visitExpr_ids ids1 ids2 (Parent.subscriptP parent) v s h1,
        visitExpr_ids ids1 ids2 (Parent.subscriptP parent) idx _ h2]
  | _, .joinedStr vals, s, h => by
    simp only [noInlineExpr] at h
    exact visitExprList_ids ids1 ids2 Parent.otherP vals s h
  | _, .formattedValue v, s, h => by
    simp only [noInlineExpr] at h
    exact visitExpr_ids ids1 ids2 Parent.otherP v s h

theorem visitExprList_ids (ids1 ids2 : Nat → Nat) :
    ∀ (parent : Parent) (es : PyExprList) (s : AState),
      noInlineExprList parent es = true →
      visitExprList ids1 parent es s = visitExprList ids2 parent es s
  | _, .nil, _, _ => rfl
  | parent, .cons e rest, s, h => by
    simp only [noInlineExprList, Bool.and_eq_true] at h
    obtain ⟨h1, h2⟩ := h
    show visitExprList ids1 parent rest (visitExpr ids1 parent e s) =
      visitExprList ids2 parent rest (visitExpr ids2 parent e s)
    rw [visitExpr_ids ids1 ids2 parent e s h1,
        visitExprList_ids ids1 ids2 parent rest _ h2]

end

mutual

theorem visitStmt_ids (ids1 ids2 : Nat → Nat) :
    ∀ (st : PyStmt) (s : AState), noInlineStmt st = true →
      visitStmt ids1 st s = visitStmt ids2 st s
  | .assign targets value line, s, h => by
    simp only [noInlineStmt, Bool.and_eq_true] at h
    obtain ⟨h1, h2⟩ := h
    dsimp only [visitStmt]
    rw [visitExprList_ids ids1 ids2 (Parent.assignP targets line) targets _ h1]
    rw [visitExpr_ids ids1 ids2 (Parent.assignP targets line) value _ h2]
  | .augAssign target value line, s, h => by
    simp only [noInlineStmt, Bool.and_eq_true] at h
    obtain ⟨h1, h2⟩ := h
    dsimp only [visitStmt]
    rw [visitExpr_ids ids1 ids2 Parent.otherP target _ h1]
    rw [visitExpr_ids ids1 ids2 Parent.otherP value _ h2]
  | .exprStmt value, s, h => by
    simp only [noInlineStmt] at h
    exact visitExpr_ids ids1 ids2 Parent.otherP value s h
  | .functionDef _ _ body _, s, h => by
    simp only [noInlineStmt] at h
    exact visitStmtList_ids ids1 ids2 body s h

theorem visitStmtList_ids (ids1 ids2 : Nat → Nat) :
    ∀ (body : PyStmtList) (s : AState), noInlineStmts body = true →
      visitStmtList ids1 body s = visitStmtList ids2 body s
  | .nil, _, _ => rfl
  | .cons st rest, s, h => by
    simp only [noInlineStmts, Bool.and_eq_true] at h
    obtain ⟨h1, h2⟩ := h
    show visitStmtList ids1 rest (visitStmt ids1 st s) =
      visitStmtList ids2 rest (visitStmt ids2 st s)
    rw [visitStmt_ids ids1 ids2 st s h1,
        visitStmtList_ids ids1 ids2 rest _ h2]

end

theorem runState_ids (ids1 ids2 : Nat → Nat) (body : PyStmtList)
    (h : noInlineStmts body = true) : runState ids1 body = runState ids2 body := by
  unfold runState
  rw [visitStmtList_ids ids1 ids2 body initState h]

theorem analyzeCode_ids (ids1 ids2 : Nat → Nat) (body : PyStmtList) (file : String)
    (h : noInlineStmts body = true) :
    analyzeCode ids1 body file = analyzeCode ids2 body file := by
  unfold analyzeCode
  rw [runState_ids ids1 ids2 body h]

end FixedTA

/-! ## Lemmas about the original analyzer's parameter marking -/

namespace OrigTA

theorem markParamStep_lookup_other (line : Nat) (s : OState) (p n : String)
    (hne : ¬ p = n) :
    alookup (markParamStep line s p).taintedVars n = alookup s.taintedVars n := by
  unfold markParamStep
  split_ifs with h
  · rfl
  · show alookup (aset s.taintedVars p _) n = _
    rw [alookup_aset, if_neg hne]

theorem markParamStep_keep (line : Nat) (s : OState) (p n : String)
    (v : TaintVariable) (h : alookup s.taintedVars n = some v) :
    alookup (markParamStep line s p).taintedVars n = some v := by
  by_cases hne : p = n
  · subst hne
    unfold markParamStep
    rw [if_pos (by simp [h])]
    exact h
  · rw [markParamStep_lookup_other line s p n hne]
    exact h

theorem markParamStep_new (line : Nat) (s : OState) (p : String)
    (h : alookup s.taintedVars p = Option.none) :
    alookup (markParamStep line s p).taintedVars p = some ⟨p, line, .parameter, []⟩ := by
  unfold markParamStep
  rw [if_neg (by simp [h])]
  show alookup (aset s.taintedVars p _) p = _
  rw [alookup_aset, if_pos rfl]

/-- A recorded variable is never overwritten by parameter marking. -/
theorem markParams_keep : ∀ (params : List String) (line : Nat) (s : OState)
    (n : String) (v : TaintVariable), alookup s.taintedVars n = some v →
    alookup (markParams params line s).taintedVars n = some v
  | [], _, _, _, _, h => h
  | q :: rest, line, s, n, v, h =>
    markParams_keep rest line (markParamStep line s q) n v
      (markParamStep_keep line s q n v h)

/-- An unrecorded declared parameter is registered as Parameter-tainted at the
function's line. -/
theorem markParams_new : ∀ (params : List String) (line : Nat) (s : OState)
    (p : String), p ∈ params → alookup s.taintedVars p = Option.none →
    alookup (markParams params line s).taintedVars p =
      some ⟨p, line, .parameter, []⟩
  | [], _, _, _, hp, _ => absurd hp (List.not_mem_nil _)
  | q :: rest, line, s, p, hp, h => by
    by_cases hqp : q = p
    · subst hqp
      exact markParams_keep rest line (markParamStep line s q) q _
        (markParamStep_new line s q h)
    · rcases List.mem_cons.mp hp with h1 | h1
      · exact absurd h1.symm hqp
      · have h2 : alookup (markParamStep line s q).taintedVars p = Option.none := by
          rw [markParamStep_lookup_other line s q p hqp]
          exact h
        exact markParams_new rest line (markParamStep line s q) p h1 h2

end OrigTA

/-! ## Claim theorems -/

/-- Claim C1: for the source unit `x = input(); os.system(x)`, one analysis
run produces exactly one vulnerability path, and that path is the two-element
list ["x", "os.system(arg0)"] (variable x, then the sink label with argument
index 0) — for every node-id oracle. -/
theorem C1_scenarioA (ids : Nat → Nat) :
    (FixedTA.analyzeCode ids progA "test.py").vulnerabilityPaths =
      [["x", "os.system(arg0)"]] := rfl

/-- Claim C2, counterexample: `foo.open` is a dotted name whose full name is
not in the sink table, whose final segment equals the bare table entry `open`,
and yet sink classification returns `path_traversal`, not no-sink. -/
theorem C2_sink_exact_counterexample :
    FixedTA.sinkFunctions.find? (fun kv => kv.1 = "foo.open") = Option.none ∧
    lastSeg "foo.open" = "open" ∧
    ("open", "path_traversal") ∈ FixedTA.sinkFunctions ∧
    strContainsSub "open" "." = false ∧
    FixedTA.isSinkFunction "foo.open" = some "path_traversal" := by
  refine ⟨by decide, by decide, by decide, by decide, by decide⟩

/-- Claim C2, amended: sink classification in the taint engine tries an exact
full-name match first and otherwise matches the final dotted segment against
ALL table entries' base names — bare entries included — so `foo.open` IS
classified (path_traversal); the exact-only restriction for bare table entries
exists only in SimplePythonAnalyzer's dangerous-function check, which indeed
rejects `foo.open` and `foo.eval` while accepting bare `open` and `eval`. -/
theorem C2_sink_fallback_amended :
    (∀ name : String,
        FixedTA.sinkFunctions.find? (fun kv => kv.1 = name) = Option.none →
        FixedTA.isSinkFunction name =
          (FixedTA.sinkFunctions.find?
            (fun kv => lastSeg kv.1 = baseNameOf name)).map (fun kv => kv.2)) ∧
    (∀ (name : String) (kv : String × String),
        FixedTA.sinkFunctions.find? (fun kv' => kv'.1 = name) = some kv →
        FixedTA.isSinkFunction name = some kv.2) ∧
    FixedTA.isSinkFunction "foo.open" = some "path_traversal" ∧
    FixedTA.isSinkFunction "foo.eval" = some "code_injection" ∧
    Simple.isDangerousFunction "foo.open" = false ∧
    Simple.isDangerousFunction "foo.eval" = false ∧
    Simple.isDangerousFunction "open" = true ∧
    Simple.isDangerousFunction "eval" = true := by
  refine ⟨?_, ?_, by decide, by decide, by decide, by decide, by decide, by decide⟩
  · intro name h
    unfold FixedTA.isSinkFunction
    rw [h]
    rfl
  · intro name kv h
    unfold FixedTA.isSinkFunction
    rw [h]
    rfl

/-- Claim C2, witness: the fallback equation applied at a module-qualified
variant absent from the table. -/
theorem C2_sink_fallback_amended_witness :
    FixedTA.isSinkFunction "bar.loads" = some "deserialization" :=
  (C2_sink_fallback_amended.1 "bar.loads" (by decide)).trans (by decide)

/-- Claim C3, counterexample: on `eval(input())` two runs with different
node-id assignments (CPython id values) return different reports — the
placeholder name in the vulnerability path embeds the id. -/
theorem C3_determinism_counterexample :
    FixedTA.analyzeCode (fun _ => 0) progC "app.py" ≠
      FixedTA.analyzeCode (fun _ => 1) progC "app.py" := by
  decide

/-- Claim C3, amended: running the analysis twice on identical source text
yields identical reports provided no inline (unassigned) source call occurs —
equivalently, whenever the run allocates no placeholder, the report does not
depend on the node-id oracle at all.  (With an inline source, as in
`eval(input())`, the reports may differ exactly in the placeholder name.) -/
theorem C3_determinism_amended (ids1 ids2 : Nat → Nat) (body : PyStmtList)
    (file : String) (h : FixedTA.noInlineStmts body = true) :
    FixedTA.analyzeCode ids1 body file = FixedTA.analyzeCode ids2 body file :=
  FixedTA.analyzeCode_ids ids1 ids2 body file h

/-- Claim C3, witness: scenario A contains no inline source call, so two runs
with different id oracles agree. -/
theorem C3_determinism_amended_witness :
    FixedTA.analyzeCode (fun n => n) progA "a.py" =
      FixedTA.analyzeCode (fun n => n + 7) progA "a.py" :=
  C3_determinism_amended (fun n => n) (fun n => n + 7) progA "a.py" (by decide)

/-- Claim C4: for `eval(input())` the traversal itself records no
vulnerability path; the deferred direct-call fix-up pass synthesizes exactly
one, of length two — an internal placeholder (prefixed `__direct_source_`)
followed by the sink label `eval(arg0)`. -/
theorem C4_scenarioC (ids : Nat → Nat) :
    (FixedTA.visitStmtList ids progC FixedTA.initState).vulnerabilityPaths = [] ∧
    (FixedTA.analyzeCode ids progC "test.py").vulnerabilityPaths =
      [["__direct_source_" ++ toString (1 : Nat) ++ "_" ++ toString (ids 0),
        "eval(arg0)"]] ∧
    FixedTA.isDirectName
      ("__direct_source_" ++ toString (1 : Nat) ++ "_" ++ toString (ids 0)) = true :=
  ⟨rfl, rfl, rfl⟩

/-- Claim C5: every variable name appearing in a propagation edge (either
endpoint) has a TaintRecord — the invariant holds of the empty state and is
preserved by the record-creating assignment, by `_mark_as_tainted`, by every
expression and statement visit, and hence holds after every prefix of a run
and of every full run. -/
theorem C5_edge_invariant :
    (∀ (varName : String) (line : Nat) (ty : TaintType) (srcs : List String)
        (s : FixedTA.AState),
        EdgesHaveRecords s.taintedVars s.propagationGraph →
        EdgesHaveRecords (FixedTA.markAsTainted varName line ty srcs s).taintedVars
          (FixedTA.markAsTainted varName line ty srcs s).propagationGraph) ∧
    (∀ (n : String) (line : Nat) (ty : TaintType)
        (tv : List (String × TaintVariable)) (g : List (String × List String)),
        EdgesHaveRecords tv g →
        EdgesHaveRecords (aset tv n ⟨n, line, ty, []⟩) g) ∧
    (∀ (ids : Nat → Nat) (parent : Parent) (e : PyExpr) (s : FixedTA.AState),
        EdgesHaveRecords s.taintedVars s.propagationGraph →
        EdgesHaveRecords (FixedTA.visitExpr ids parent e s).taintedVars
          (FixedTA.visitExpr ids parent e s).propagationGraph) ∧
    (∀ (ids : Nat → Nat) (st : PyStmt) (s : FixedTA.AState),
        EdgesHaveRecords s.taintedVars s.propagationGraph →
        EdgesHaveRecords (FixedTA.visitStmt ids st s).taintedVars
          (FixedTA.visitStmt ids st s).propagationGraph) ∧
    (∀ (ids : Nat → Nat) (body : PyStmtList) (s : FixedTA.AState),
        EdgesHaveRecords s.taintedVars s.propagationGraph →
        EdgesHaveRecords (FixedTA.visitStmtList ids body s).taintedVars
          (FixedTA.visitStmtList ids body s).propagationGraph) ∧
    (∀ (ids : Nat → Nat) (body : PyStmtList),
        EdgesHaveRecords (FixedTA.runState ids body).taintedVars
          (FixedTA.runState ids body).propagationGraph) := by
  refine ⟨?_, ?_, ?_, ?_, ?_, ?_⟩
  · exact fun varName line ty srcs s h =>
      FixedTA.markAsTainted_inv FixedTA.edges_markPres varName line ty srcs s h
  · exact fun n line ty tv g h => FixedTA.aset_edges n line ty tv g h
  · exact fun ids parent e s h =>
      FixedTA.visitExpr_inv FixedTA.edges_markPres FixedTA.edges_setPres ids parent e s h
  · exact fun ids st s h =>
      FixedTA.visitStmt_inv FixedTA.edges_markPres FixedTA.edges_setPres ids st s h
  · exact fun ids body s h =>
      FixedTA.visitStmtList_inv FixedTA.edges_markPres FixedTA.edges_setPres ids body s h
  · exact fun ids body =>
      FixedTA.runState_inv FixedTA.edges_markPres FixedTA.edges_setPres ids body
        (fun p hp => absurd hp (List.not_mem_nil p))

/-- Claim C5, witness: the invariant concretely preserved through a mark and
through a complete run. -/
theorem C5_edge_invariant_witness :
    EdgesHaveRecords
      (FixedTA.markAsTainted "y" 3 .propagated ["x"] stateW).taintedVars
      (FixedTA.markAsTainted "y" 3 .propagated ["x"] stateW).propagationGraph ∧
    EdgesHaveRecords (FixedTA.runState (fun n => n) progA).taintedVars
      (FixedTA.runState (fun n => n) progA).propagationGraph :=
  ⟨C5_edge_invariant.1 "y" 3 .propagated ["x"] stateW (by decide),
   C5_edge_invariant.2.2.2.2.2 (fun n => n) progA⟩

/-- Claim C6, counterexample: after `x = input(); x = x.strip()` the record of
x lists x itself among its sources — the propagator handler extracts the
tainted receiver and `_mark_as_tainted` accepts the target as its own
upstream, so a self-loop IS recorded. -/
theorem C6_selfloop_counterexample :
    (alookup (FixedTA.runState (fun _ => 0) progSelf).taintedVars "x").map
      (fun v => v.sources) = some ["x"] ∧
    (FixedTA.runState (fun _ => 0) progSelf).propagationGraph = [("x", ["x"])] ∧
    ¬ NoSelfLoop (FixedTA.runState (fun _ => 0) progSelf).taintedVars := by
  refine ⟨by decide, by decide, by decide⟩

/-- Claim C6, amended: no self-loop is ever recorded by a marking operation
whose upstream-name list excludes the target (and fresh records start with no
sources); but an assignment like `x = x.strip()` passes the target itself as
an upstream name and does create a self-loop — termination of the tracer is
nevertheless guaranteed by its visited bound (claim C7). -/
theorem C6_noselfloop_amended :
    (∀ (varName : String) (line : Nat) (ty : TaintType) (srcs : List String)
        (s : FixedTA.AState), NoSelfLoop s.taintedVars → ¬ varName ∈ srcs →
        NoSelfLoop (FixedTA.markAsTainted varName line ty srcs s).taintedVars) ∧
    (∀ (n : String) (line : Nat) (ty : TaintType)
        (tv : List (String × TaintVariable)), NoSelfLoop tv →
        NoSelfLoop (aset tv n ⟨n, line, ty, []⟩)) := by
  constructor
  · exact fun varName line ty srcs s h hout =>
      FixedTA.markCore_noSelfLoop varName line ty srcs s.taintedVars
        s.propagationGraph h hout
  · exact fun n line ty tv h => FixedTA.aset_noSelfLoop n line ty tv h

/-- Claim C6, witness: marking with a distinct upstream name keeps the store
self-loop free. -/
theorem C6_noselfloop_amended_witness :
    NoSelfLoop (FixedTA.markAsTainted "y" 3 .propagated ["x"] stateW).taintedVars :=
  C6_noselfloop_amended.1 "y" 3 .propagated ["x"] stateW (by decide) (by decide)

/-- Claim C7, counterexample: over a store whose single record lists an
unrecorded upstream name, the backward trace returns a two-element path,
exceeding the number of distinct tainted variables (one). -/
theorem C7_trace_counterexample :
    FixedTA.tracePath tvDangling "a" = ["b", "a"] ∧
    distinctCount tvDangling = 1 ∧
    ¬ ((FixedTA.tracePath tvDangling "a").length ≤ distinctCount tvDangling) := by
  refine ⟨by decide, by decide, by decide⟩

/-- Claim C7, amended: for every store and start variable the backward trace
never repeats a name; its length is bounded by the number of distinct tainted
variables provided every listed source has a record (a closure invariant that
every analyzer run maintains); and the loop terminates — any fuel beyond the
store size yields the same result. -/
theorem C7_trace_amended :
    (∀ (tv : List (String × TaintVariable)) (startVar : String),
        (FixedTA.tracePath tv startVar).Nodup) ∧
    (∀ (tv : List (String × TaintVariable)) (startVar : String),
        RecordsClosed tv →
        (FixedTA.tracePath tv startVar).length ≤ distinctCount tv) ∧
    (∀ (tv : List (String × TaintVariable)) (startVar : String) (fuel : Nat),
        tv.length + 1 ≤ fuel →
        FixedTA.traceAux tv fuel startVar [] [startVar] =
          FixedTA.traceAux tv (tv.length + 1) startVar [] [startVar]) ∧
    (∀ (ids : Nat → Nat) (body : PyStmtList),
        RecordsClosed (FixedTA.runState ids body).taintedVars) := by
  refine ⟨?_, ?_, ?_, ?_⟩
  · exact fun tv startVar => FixedTA.tracePath_nodup tv startVar
  · exact fun tv startVar hcl => FixedTA.tracePath_length tv startVar hcl
  · exact fun tv startVar fuel hf => FixedTA.traceAux_fuel tv startVar fuel hf
  · exact fun ids body =>
      FixedTA.runState_inv FixedTA.closed_markPres FixedTA.closed_setPres ids body
        (fun p hp => absurd hp (List.not_mem_nil p))

/-- Claim C7, witness: the amended properties at a concrete closed store. -/
theorem C7_trace_amended_witness :
    (FixedTA.tracePath tvChain "y").Nodup ∧
    (FixedTA.tracePath tvChain "y").length ≤ distinctCount tvChain ∧
    FixedTA.traceAux tvChain 10 "y" [] ["y"] =
      FixedTA.traceAux tvChain 3 "y" [] ["y"] ∧
    RecordsClosed (FixedTA.runState (fun n => n) progA).taintedVars :=
  ⟨C7_trace_amended.1 tvChain "y",
   C7_trace_amended.2.1 tvChain "y" (by decide),
   C7_trace_amended.2.2.1 tvChain "y" 10 (by decide),
   C7_trace_amended.2.2.2 (fun n => n) progA⟩

/-- Claim C8: a mark_or_update call on a variable that already has a
TaintRecord leaves the record's name, line and TaintKind unchanged and only
appends entries to its sources list. -/
theorem C8_mark_monotone (varName : String) (line : Nat) (ty : TaintType)
    (srcs : List String) (s : FixedTA.AState) (v : TaintVariable)
    (h : alookup s.taintedVars varName = some v) :
    ∃ l, alookup (FixedTA.markAsTainted varName line ty srcs s).taintedVars
      varName = some ⟨v.name, v.line, v.type, v.sources ++ l⟩ :=
  FixedTA.markCore_existing varName line ty srcs s.taintedVars
    s.propagationGraph v h

/-- Claim C8, witness: re-marking the already-tainted y with a new kind and
line leaves its recorded kind and line unchanged. -/
theorem C8_mark_monotone_witness :
    ∃ l, alookup (FixedTA.markAsTainted "y" 9 .userInput ["x"] stateW).taintedVars
      "y" = some ⟨"y", 2, .propagated, ["x"] ++ l⟩ :=
  C8_mark_monotone "y" 9 .userInput ["x"] stateW ⟨"y", 2, .propagated, ["x"]⟩
    (by decide)

/-- Claim C9: `visit_FunctionDef` registers every declared parameter that has
no TaintRecord as Parameter-tainted at the function definition's line, leaves
already-recorded parameters untouched, and then walks the body; consequently
`def f(user_data): os.system(user_data)` yields the single path
["user_data", "os.system()"] — a path of length one plus the sink label. -/
theorem C9_parameters :
    (∀ (f : String) (params : List String) (body : PyStmtList) (line : Nat)
        (s : OrigTA.OState),
        OrigTA.visitStmt (.functionDef f params body line) s =
          OrigTA.visitStmtList body (OrigTA.markParams params line s)) ∧
    (∀ (params : List String) (line : Nat) (s : OrigTA.OState) (p : String),
        p ∈ params → alookup s.taintedVars p = Option.none →
        alookup (OrigTA.markParams params line s).taintedVars p =
          some ⟨p, line, .parameter, []⟩) ∧
    (∀ (params : List String) (line : Nat) (s : OrigTA.OState) (p : String)
        (v : TaintVariable), alookup s.taintedVars p = some v →
        alookup (OrigTA.markParams params line s).taintedVars p = some v) ∧
    (OrigTA.runState progE).vulnerabilityPaths = [["user_data", "os.system()"]] := by
  refine ⟨fun _ _ _ _ _ => rfl, ?_, ?_, by decide⟩
  · exact fun params line s p hp h => OrigTA.markParams_new params line s p hp h
  · exact fun params line s p v h => OrigTA.markParams_keep params line s p v h

/-- Claim C9, witness: a fresh parameter is registered and a recorded one is
kept, at concrete inputs. -/
theorem C9_parameters_witness :
    alookup (OrigTA.markParams ["user_data"] 1 OrigTA.initState).taintedVars
      "user_data" = some ⟨"user_data", 1, .parameter, []⟩ ∧
    alookup (OrigTA.markParams ["v"] 8 ostateW).taintedVars "v" =
      some ⟨"v", 3, .webInput, []⟩ :=
  ⟨C9_parameters.2.1 ["user_data"] 1 OrigTA.initState "user_data" (by decide)
    (by decide),
   C9_parameters.2.2.1 ["v"] 8 ostateW "v" ⟨"v", 3, .webInput, []⟩ (by decide)⟩

/-- Claim C10: tainted-name extraction over a sink argument that is a
zero-argument propagator method call never inspects the receiver — it is
empty for every receiver, tainted or not; so `os.system(x.strip())` with
tainted x yields no vulnerability path, even though the assignment
`clean = x.strip()` does propagate x's taint to clean through the separate
propagator handler. -/
theorem C10_receiver_ignored :
    (∀ (tv : List (String × TaintVariable)) (recv : PyExpr) (m : String)
        (l c : Nat),
        FixedTA.extractTainted tv (.call (.attribute recv m l) .nil c) = []) ∧
    (∀ ids : Nat → Nat,
        (FixedTA.analyzeCode ids progSinkRecv "t.py").vulnerabilityPaths = []) ∧
    (∀ ids : Nat → Nat,
        TaintedHas (FixedTA.runState ids progSinkRecv).taintedVars "x") ∧
    (∀ ids : Nat → Nat,
        (alookup (FixedTA.runState ids progPropAssign).taintedVars "clean").map
          (fun v => v.sources) = some ["x"]) := by
  refine ⟨?_, fun _ => rfl, fun _ => rfl, fun _ => rfl⟩
  intro tv recv m l c
  show dedupFirst (FixedTA.extractTaintedList tv .nil ++ _) = []
  by_cases hb : FixedTA.isPropagatorFunction (getFullFuncName (.attribute recv m l)) = true
  · simp [FixedTA.extractTaintedList, hb, dedupFirst]
  · simp [FixedTA.extractTaintedList, hb, dedupFirst]

end PySafeScan
